import Mathlib

/-!
# Shared-memory request/response channel (chapter09: mmap_s_sem.c, mmap_r_sem.c)

A shallow embedding of the two endpoint programs that exchange a request and a
response through a 4096-byte POSIX shared-memory region and take turns with one
System V semaphore.

* Bytes are natural numbers and buffers are lists of bytes (a `char buf[N]` is a
  list of length `N`).  The C string held in a buffer is the run of bytes before
  the first NUL.
* The libc routines the programs call (strlen, strcmp, strncpy, fgets, sscanf
  with "%[^\n]", snprintf with "%d") are modelled by their documented behaviour.
* semop is the atomic kernel operation: a negative sem_op blocks until the value
  is large enough and then subtracts, a positive one adds.  On a semaphore that
  has been removed semop fails at once; both programs ignore its return value and
  go on.  The upper limit SEMVMX of a semaphore value is not modelled.
* Each program is cut into steps at its semaphore operations and at the
  statements that touch the shared region; a schedule (a list of actors) picks
  who moves next.
* The start-up of both programs (ftok, semget, shm_open, ftruncate, mmap) is a
  function from the results of the system calls to the calls made, up to the
  exit or the first semop.

The file also embeds, in namespaces of their own, the mode computation of
chapter06/mymask.c (`Mymask`), the tokenizer get_arg / get_arg2 of
chapter05/shell_option.c and chapter08/shell_pipe.c (`Shell`), the list built in
an array by chapter01/linearlist.c (`Linearlist`), the used-block count of
chapter06/mydf.c (`Mydf`) and the reading of a word in chapter10/client_socket.c
(`Client`).  All definitions come first, the theorems follow.
-/

namespace Shm

/-! ## Buffers and C strings -/

/-- A buffer of bytes. -/
abbrev Buf := List Nat

/-- Size of the arrays `line`, `command`, `count` and of the mapped region
(`char line[4096]`, `mmap(0, 4096, ...)`). -/
def CAP : Nat := 4096

/-- The C string held in a buffer: the bytes before the first NUL. -/
def cstr (b : Buf) : List Nat := b.takeWhile (fun c => c != 0)

/-- Length of the C string held in the buffer (strlen). -/
def strlen (b : Buf) : Nat := (cstr b).length

/-- The buffer holds a NUL within its bounds, so reading it as a string stays
inside the buffer. -/
def Terminated (b : Buf) : Prop := strlen b < b.length

instance (b : Buf) : Decidable (Terminated b) := by
  unfold Terminated; infer_instance

/-- Bytewise comparison up to and including the first NUL (strcmp); the end of a
list reads as NUL.  The result is 0 exactly when the two strings are equal. -/
def strcmp : Buf → Buf → Int
  | [], [] => 0
  | [], b :: _ => 0 - (b : Int)
  | a :: _, [] => (a : Int)
  | a :: as, b :: bs =>
    if a = b then (if a = 0 then 0 else strcmp as bs) else (a : Int) - (b : Int)

/-- Copy of a string with padding (strncpy(dst, src, n)): the bytes of `src` up to
its NUL go into `dst`, at most `n` of them, and the rest of the first `n` bytes
of `dst` is filled with NUL.  Bytes of `dst` from index `n` on are untouched. -/
def strncpy : Buf → Buf → Nat → Buf
  | dst, _, 0 => dst
  | [], _, _ + 1 => []
  | _ :: d, [], n + 1 => 0 :: strncpy d [] n
  | _ :: d, c :: s, n + 1 =>
    if c = 0 then 0 :: strncpy d [] n else c :: strncpy d s n

/-- The literal "exit" with its terminating NUL. -/
def exitLit : Buf := [101, 120, 105, 116, 0]

/-- The bytes fgets takes from the stream when it may store at most `k` of them:
it stops after a newline (byte 10) or at the end of the stream. -/
def fgetsLine : Nat → List Nat → List Nat
  | 0, _ => []
  | _ + 1, [] => []
  | k + 1, c :: cs => if c = 10 then [c] else c :: fgetsLine k cs

/-- Model of fgets(buf, size, stdin), whose return value the requester ignores:
the new buffer and the rest of the stream.  At end of file nothing is read and
the buffer is left as it was. -/
def fgets (buf : Buf) (size : Nat) (stdin : List Nat) : Buf × List Nat :=
  let l := fgetsLine (size - 1) stdin
  if l = [] then (buf, stdin)
  else (l ++ 0 :: buf.drop (l.length + 1), stdin.drop l.length)

/-- Model of sscanf(line, "%[^\n]", command): the return value and the new
contents of `command`.  The conversion matches the non-empty run of bytes before
the first newline of the string in `line`; the result is -1 (EOF) on an empty
string, 0 when the string starts with a newline (nothing is stored), and 1
otherwise, with the run and a NUL stored. -/
def sscanf (line command : Buf) : Int × Buf :=
  let s := cstr line
  let m := s.takeWhile (fun c => c != 10)
  if s = [] then (-1, command)
  else if m = [] then (0, command)
  else (1, m ++ 0 :: command.drop (m.length + 1))

/-- Digits of `n` in base ten as ASCII bytes, most significant first, prepended
to `acc`. -/
def decimalAux : Nat → Nat → List Nat → List Nat
  | 0, _, acc => acc
  | fuel + 1, n, acc =>
    if n / 10 = 0 then (48 + n % 10) :: acc
    else decimalAux fuel (n / 10) ((48 + n % 10) :: acc)

/-- What the conversion "%d" prints for a non-negative `n`. -/
def decimal (n : Nat) : List Nat := decimalAux (n + 1) n []

/-- Model of snprintf(count, size, "%d", n) for a non-negative `n`: at most
`size - 1` digits and a NUL are stored. -/
def snprintf (count : Buf) (size : Nat) (n : Nat) : Buf :=
  let d := (decimal n).take (size - 1)
  if size = 0 then count else d ++ 0 :: count.drop (d.length + 1)

/-! ## The semaphore -/

/-- A semop with sem_op = -k on the semaphore: `none` means the caller blocks;
otherwise the new state of the semaphore.  On a removed semaphore (`none` inside)
the call fails at once and the caller, which ignores the result, goes on. -/
def semWait (k : Nat) (sem : Option Nat) : Option (Option Nat) :=
  match sem with
  | none => some none
  | some v => if k ≤ v then some (some (v - k)) else none

/-- A semop with sem_op = +k: never blocks. -/
def semAdd (k : Nat) (sem : Option Nat) : Option Nat :=
  sem.map (fun v => v + k)

/-! ## The two endpoint programs as a transition system -/

/-- The two endpoints: the requester (mmap_s_sem) and the responder (mmap_r_sem). -/
inductive Actor
  | req
  | resp
deriving DecidableEq

/-- Program points of the requester (mmap_s_sem.c, main). -/
inductive RPc
  /-- Line 218: about to semop(-1) at the top of the loop. -/
  | wait1
  /-- Lines 227-246: fgets, sscanf, the test of ret2, strcmp, strncpy into the region. -/
  | input
  /-- Lines 257-276: about to semop(+2), then the test of ret3. -/
  | add2
  /-- Line 278: about to semop(-1) for the response. -/
  | wait2
  /-- Line 286: fprintf of command and of the region. -/
  | print
  /-- Line 296: about to semop(+1). -/
  | add1
  /-- Line 307: munmap(p, sizeof(line)). -/
  | unmap
  /-- Line 315: semctl(semid, 0, IPC_RMID). -/
  | rmid
  /-- Line 329: close(fd). -/
  | close
  /-- Line 336: return. -/
  | done
deriving DecidableEq

/-- Program points of the responder (mmap_r_sem.c, main). -/
inductive SPc
  /-- Line 188: about to semop(-2). -/
  | wait
  /-- Lines 201-216: fprintf of the region, strcmp with "exit", the test of ret1. -/
  | check
  /-- Line 218: n = strlen(p). -/
  | len
  /-- Lines 224-238: snprintf into count, strncpy of count into the region. -/
  | reply
  /-- Line 252: about to semop(+1). -/
  | add1
  /-- Line 263: munmap(p, sizeof(char)). -/
  | unmap
  /-- Line 288: close(fd). -/
  | close
  /-- Line 290: shm_unlink. -/
  | unlink
  /-- Line 299: return. -/
  | done
deriving DecidableEq

/-- Joint state of the kernel objects and of the two processes. -/
structure State where
  /-- Value of the semaphore; `none` once it has been removed. -/
  sem : Option Nat
  /-- The mapped region (the pointer `p` of both programs). -/
  p : Buf
  /-- Whether the name "/shared_memory" exists. -/
  linked : Bool
  /-- Program point of the requester. -/
  rpc : RPc
  /-- Bytes not yet read from the requester's standard input. -/
  stdin : List Nat
  /-- The requester's array `line`. -/
  line : Buf
  /-- The requester's array `command`. -/
  command : Buf
  /-- The requester's `ret3`. -/
  ret3 : Int
  /-- What the requester printed at line 286: pairs (command, region). -/
  shown : List (List Nat × List Nat)
  /-- Length the requester passed to munmap, once called. -/
  runmap : Option Nat
  /-- Whether the requester closed its descriptor. -/
  rclosed : Bool
  /-- Program point of the responder. -/
  spc : SPc
  /-- The responder's `ret1`. -/
  ret1 : Int
  /-- The responder's `n`. -/
  n : Nat
  /-- The responder's array `count`. -/
  count : Buf
  /-- What the responder printed at line 201: the requests it saw. -/
  seen : List (List Nat)
  /-- Length the responder passed to munmap, once called. -/
  sunmap : Option Nat
  /-- Whether the responder closed its descriptor. -/
  sclosed : Bool
deriving DecidableEq

/-- One step of the requester; `none` when it is blocked in semop or has returned. -/
def stepReq (s : State) : Option State :=
  match s.rpc with
  | .wait1 => (semWait 1 s.sem).map (fun v => { s with sem := v, rpc := .input })
  | .input =>
    let io := fgets s.line CAP s.stdin
    let sc := sscanf io.1 s.command
    if sc.1 < 0 then
      some { s with stdin := io.2, line := io.1, command := sc.2, rpc := .unmap }
    else
      some { s with stdin := io.2, line := io.1, command := sc.2,
                    ret3 := strcmp sc.2 exitLit,
                    p := strncpy s.p sc.2 CAP, rpc := .add2 }
  | .add2 =>
    some { s with sem := semAdd 2 s.sem, rpc := if s.ret3 = 0 then .unmap else .wait2 }
  | .wait2 => (semWait 1 s.sem).map (fun v => { s with sem := v, rpc := .print })
  | .print =>
    some { s with shown := s.shown ++ [(cstr s.command, cstr s.p)], rpc := .add1 }
  | .add1 => some { s with sem := semAdd 1 s.sem, rpc := .wait1 }
  | .unmap => some { s with runmap := some CAP, rpc := .rmid }
  | .rmid => some { s with sem := none, rpc := .close }
  | .close => some { s with rclosed := true, rpc := .done }
  | .done => none

/-- One step of the responder; `none` when it is blocked in semop or has returned. -/
def stepResp (s : State) : Option State :=
  match s.spc with
  | .wait => (semWait 2 s.sem).map (fun v => { s with sem := v, spc := .check })
  | .check =>
    let r := strcmp s.p exitLit
    some { s with seen := s.seen ++ [cstr s.p], ret1 := r,
                  spc := if r = 0 then .unmap else .len }
  | .len => some { s with n := strlen s.p, spc := .reply }
  | .reply =>
    let c := snprintf s.count CAP s.n
    some { s with count := c, p := strncpy s.p c 4096, spc := .add1 }
  | .add1 => some { s with sem := semAdd 1 s.sem, spc := .wait }
  | .unmap => some { s with sunmap := some 1, spc := .close }
  | .close => some { s with sclosed := true, spc := .unlink }
  | .unlink => some { s with linked := false, spc := .done }
  | .done => none

/-- One step of the chosen endpoint. -/
def step : Actor → State → Option State
  | .req, s => stepReq s
  | .resp, s => stepResp s

/-- Execution of a schedule; `none` when the schedule asks a blocked or finished
endpoint to move. -/
def run : List Actor → State → Option State
  | [], s => some s
  | a :: as, s => (step a s).bind (run as)

/-- The state in which both endpoints have finished their set-up and stand at
the top of their loops: the semaphore is 1, the region, the standard input and
the (uninitialised) local arrays are arbitrary. -/
def init (stdin : List Nat) (p line command count : Buf) : State :=
  { sem := some 1, p := p, linked := true,
    rpc := .wait1, stdin := stdin, line := line, command := command, ret3 := 0,
    shown := [], runmap := none, rclosed := false,
    spc := .wait, ret1 := 0, n := 0, count := count, seen := [],
    sunmap := none, sclosed := false }

/-- States the two programs can reach from `s0` under some schedule. -/
def Reachable (s0 s : State) : Prop := ∃ sched, run sched s0 = some s

/-- The requester stands at one of its waits and that wait would return. -/
def reqWaitEnabled (s : State) : Bool :=
  (s.rpc = .wait1 || s.rpc = .wait2) && (semWait 1 s.sem).isSome

/-- The responder stands at its wait and that wait would return. -/
def respWaitEnabled (s : State) : Bool :=
  s.spc = .wait && (semWait 2 s.sem).isSome

/-- The requester is between a wait that returned and its next semop(+k). -/
def reqInSection (s : State) : Bool :=
  s.rpc = .input || s.rpc = .add2 || s.rpc = .print || s.rpc = .add1

/-- The responder is between its wait that returned and its semop(+1). -/
def respInSection (s : State) : Bool :=
  s.spc = .check || s.spc = .len || s.spc = .reply || s.spc = .add1

/-- A region of 4096 NUL bytes (a freshly truncated shared-memory object), also
used as the initial contents of local arrays in examples. -/
def zeros : Buf := List.replicate 4096 0

/-- Example session: both endpoints ready, a fresh region, and the user typing
"Apple", "Ball" and "exit", each followed by a newline. -/
def demo : State :=
  init [65, 112, 112, 108, 101, 10, 66, 97, 108, 108, 10, 101, 120, 105, 116, 10]
    zeros zeros zeros zeros

/-- The responder right after its wait returned, with the given region; the
requester stands at its second wait. -/
def atCheck (p : Buf) : State :=
  { init [] p zeros zeros zeros with sem := some 0, rpc := .wait2, spc := .check }

/-- The requester right after its first wait returned, with the given standard
input and a fresh region; the responder stands at its wait. -/
def atInput (stdin : List Nat) : State :=
  { init stdin zeros zeros zeros zeros with sem := some 0, rpc := .input }

/-- A buffer of 4096 bytes holding "Apple". -/
def appleBuf : Buf := [65, 112, 112, 108, 101] ++ List.replicate 4091 0

/-- A buffer of 4096 bytes holding "Ball". -/
def ballBuf : Buf := [66, 97, 108, 108] ++ List.replicate 4092 0

/-- A buffer of 4096 bytes holding "exit". -/
def exitBuf : Buf := [101, 120, 105, 116] ++ List.replicate 4092 0

/-- States in which the requester has returned after removing the semaphore and
the responder circulates in its loop over a region that holds "1". -/
def Trapped (s : State) : Prop :=
  s.rpc = .done ∧ s.sem = none ∧ s.p.length = CAP ∧ cstr s.p = [49] ∧
    (s.spc = .wait ∨ s.spc = .check ∨ s.spc = .len ∨ (s.spc = .reply ∧ s.n = 1) ∨
      s.spc = .add1)

/-- A schedule of the session `demo` in which the requester twice passes its
second wait before the responder has taken its turn, so that the responder is
still inside its iteration for "Ball" when the requester writes "exit". -/
def lateSchedule : List Actor :=
  [.req, .req, .req, .req, .req, .req, .req, .req, .req,
   .resp, .resp,
   .req, .req, .req, .req, .req,
   .resp, .resp,
   .req, .req, .req, .req,
   .resp, .resp, .resp, .resp, .resp]

/-! ## Creation of the semaphore (set-up part of both programs) -/

/-- Program points of the set-up of the semaphore, the same in both programs
(mmap_s_sem.c lines 129-163, mmap_r_sem.c lines 121-146). -/
inductive UPc
  /-- About to semget(semkey, 1, IPC_CREAT | IPC_EXCL | 0666). -/
  | excl
  /-- The exclusive creation failed (semid < 0): about to semget(semkey, 1, IPC_CREAT | 0666). -/
  | attach
  /-- The exclusive creation succeeded: about to semctl(semid, 0, SETVAL, 1). -/
  | setval
  /-- The set-up of the semaphore is over. -/
  | ready
deriving DecidableEq

/-- State of the set-up: the kernel's semaphore for the shared key and the two
processes. -/
structure Setup where
  /-- The semaphore of the key: `none` while it does not exist, else its value. -/
  ksem : Option Nat
  /-- Program point of the requester. -/
  rq : UPc
  /-- Program point of the responder. -/
  rs : UPc
  /-- Whether the requester's exclusive semget succeeded. -/
  rcreated : Bool
  /-- Whether the responder's exclusive semget succeeded. -/
  screated : Bool
  /-- The SETVAL calls made so far: who made them and with which value. -/
  setvals : List (Actor × Nat)
  /-- The endpoints that fell back to the non-exclusive semget so far. -/
  attaches : List Actor
deriving DecidableEq

/-- Program point of an endpoint in the set-up. -/
def Setup.pc (s : Setup) : Actor → UPc
  | .req => s.rq
  | .resp => s.rs

/-- Move an endpoint to a program point. -/
def Setup.setPc (s : Setup) : Actor → UPc → Setup
  | .req, pc => { s with rq := pc }
  | .resp, pc => { s with rs := pc }

/-- Record that the exclusive semget of an endpoint succeeded. -/
def Setup.markCreated (s : Setup) : Actor → Setup
  | .req => { s with rcreated := true }
  | .resp => { s with screated := true }

/-- One step of the set-up of an endpoint.  A semaphore set that semget creates
starts with the value 0. -/
def setupStep (a : Actor) (s : Setup) : Option Setup :=
  match s.pc a with
  | .excl =>
    match s.ksem with
    | none => some { (s.markCreated a).setPc a .setval with ksem := some 0 }
    | some _ => some (s.setPc a .attach)
  | .attach =>
    some { s.setPc a .ready with ksem := some (s.ksem.getD 0), attaches := s.attaches ++ [a] }
  | .setval =>
    some { s.setPc a .ready with ksem := some 1, setvals := s.setvals ++ [(a, 1)] }
  | .ready => none

/-- Execution of a schedule of set-up steps. -/
def setupRun : List Actor → Setup → Option Setup
  | [], s => some s
  | a :: as, s => (setupStep a s).bind (setupRun as)

/-- Both endpoints start against a semaphore that does not exist. -/
def setup0 : Setup :=
  { ksem := none, rq := .excl, rs := .excl, rcreated := false, screated := false,
    setvals := [], attaches := [] }

/-- The states one more step away from the states of a list, added to the list. -/
def setupExpand (l : List Setup) : List Setup :=
  l ++ l.flatMap (fun s => ([Actor.req, Actor.resp]).filterMap (fun a => setupStep a s))

/-- All states the set-up reaches from `setup0` (each endpoint makes two steps). -/
def setupStates : List Setup :=
  setupExpand (setupExpand (setupExpand (setupExpand [setup0])))

/-- Outcome of a finished set-up in which exactly one SETVAL was made, by the
endpoint whose exclusive creation succeeded and with value 1, while the other
endpoint, whose exclusive creation failed, only attached. -/
def setupGood (s : Setup) : Bool :=
  (s.setvals = [(Actor.req, 1)] && s.attaches = [Actor.resp] && s.rcreated && !s.screated) ||
  (s.setvals = [(Actor.resp, 1)] && s.attaches = [Actor.req] && s.screated && !s.rcreated)

/-! ## Traces of a schedule -/

/-- The steps a schedule makes from a state: who moved, and the state in which
the move was made.  The list stops where the schedule asks a blocked or finished
endpoint to move. -/
def steps : List Actor → State → List (Actor × State)
  | [], _ => []
  | a :: as, s =>
    match step a s with
    | none => []
    | some t => (a, s) :: steps as t

/-- The step executes semctl(semid, 0, IPC_RMID), the only statement of the two
programs that removes the semaphore (mmap_s_sem.c line 315). -/
def isRmid (e : Actor × State) : Bool :=
  e.1 = Actor.req && e.2.rpc = RPc.rmid

/-- The step executes shm_unlink("/shared_memory"), the only statement of the two
programs that removes the name of the region (mmap_r_sem.c line 290). -/
def isUnlink (e : Actor × State) : Bool :=
  e.1 = Actor.resp && e.2.spc = SPc.unlink

/-- The value of the semaphore after each step of a schedule. -/
def semHistory : List Actor → State → List (Option Nat)
  | [], _ => []
  | a :: as, s =>
    match step a s with
    | none => []
    | some t => t.sem :: semHistory as t

/-- One request/response cycle in the intended order: the requester waits,
writes and adds 2; the responder waits, checks, measures, replies and adds 1;
the requester waits, prints and adds 1. -/
def cycle : List Actor :=
  [.req, .req, .req, .resp, .resp, .resp, .resp, .resp, .req, .req, .req]

/-- Model of shm_open on the name "/shared_memory": whether the name exists
afterwards, or `none` when the call fails with ENOENT, which it does exactly when
the name does not exist and O_CREAT is not given. -/
def shm_open (oCreat : Bool) (linked : Bool) : Option Bool :=
  if linked || oCreat then some true else none

/-- Example session in which the user types "exit" at once. -/
def exitDemo : State :=
  init [101, 120, 105, 116, 10] zeros zeros zeros zeros

/-! ## Start-up of the endpoints and the lengths they map -/

/-- Results the environment returns to the system calls of the start-up. -/
structure Sys where
  /-- Value returned by semget(semkey, 1, IPC_CREAT | IPC_EXCL | 0666). -/
  semgetExcl : Int
  /-- Value returned by semget(semkey, 1, IPC_CREAT | 0666). -/
  semgetPlain : Int
  /-- Value returned by shm_open. -/
  shmFd : Int
  /-- Value returned by ftruncate. -/
  ftruncateRet : Int
  /-- Whether mmap returned MAP_FAILED. -/
  mmapFailed : Bool
deriving DecidableEq

/-- What a program does during its start-up, as seen from outside. -/
inductive Call
  /-- A call ftok(path, id). -/
  | ftok (path : String) (id : Nat)
  /-- A call of semget, with or without IPC_EXCL. -/
  | semget (excl : Bool)
  /-- A call semctl(semid, 0, SETVAL, v). -/
  | setval (semid : Int) (v : Nat)
  /-- The output of the value of semid on stderr. -/
  | print
  /-- A call shm_open(name, ...), with or without O_CREAT. -/
  | shm_open (name : String) (creat : Bool)
  /-- A call ftruncate(fd, len). -/
  | ftruncate (len : Nat)
  /-- A call mmap(0, len, ...). -/
  | mmap (len : Nat)
  /-- An error message on stderr (fprintf of "shm_open failed", or perror). -/
  | diag
  /-- Termination of the process with the given status. -/
  | exit (status : Nat)
  /-- The first statement of the loop: semop with the given sem_op on semid. -/
  | semop (semid : Int) (op : Int)
deriving DecidableEq

/-- The semid a program ends up with: the result of the exclusive semget, or,
when that is negative, of the second semget. -/
def semidOf (e : Sys) : Int :=
  if e.semgetExcl < 0 then e.semgetPlain else e.semgetExcl

/-- The semaphore part of the start-up, the same in both programs apart from the
requester's output of semid. -/
def semStart (e : Sys) (prints : Bool) : List Call :=
  [Call.semget true] ++ (if prints then [Call.print] else []) ++
    (if e.semgetExcl < 0 then [Call.semget false] ++ (if prints then [Call.print] else [])
     else [Call.setval e.semgetExcl 1])

/-- Start-up of the requester (mmap_s_sem.c lines 117-219), up to its exit or to
the first semop of its loop. -/
def reqStart (e : Sys) : List Call :=
  [Call.ftok "mmap2_r_sem" 97] ++ semStart e true ++
    [Call.shm_open "/shared_memory" true] ++
    (if e.shmFd = -1 then [Call.diag, Call.exit 1]
     else [Call.ftruncate CAP, Call.mmap CAP] ++
       (if e.mmapFailed then [Call.diag, Call.exit 1]
        else [Call.semop (semidOf e) (-1)]))

/-- Start-up of the responder (mmap_r_sem.c lines 111-189), up to its exit or to
the first semop of its loop. -/
def respStart (e : Sys) : List Call :=
  [Call.ftok "mmap2_r_sem" 97] ++ semStart e false ++
    [Call.shm_open "/shared_memory" false] ++
    (if e.shmFd = -1 then [Call.diag, Call.exit 1]
     else [Call.mmap 4096] ++
       (if e.mmapFailed then [Call.diag, Call.exit 1]
        else [Call.semop (semidOf e) (-2)]))

/-- Whether a start-up reaches a semaphore wait. -/
def waits (tr : List Call) : Bool :=
  tr.any (fun c => match c with
    | Call.semop _ _ => true
    | _ => false)

/-- The arguments of the ftok calls in a start-up. -/
def ftokArgs (tr : List Call) : List (String × Nat) :=
  tr.filterMap (fun c => match c with
    | Call.ftok path id => some (path, id)
    | _ => none)

/-- The names passed to shm_open in a start-up. -/
def shmNames (tr : List Call) : List String :=
  tr.filterMap (fun c => match c with
    | Call.shm_open name _ => some name
    | _ => none)

/-- The lengths passed to mmap in a start-up. -/
def mmapLens (tr : List Call) : List Nat :=
  tr.filterMap (fun c => match c with
    | Call.mmap len => some len
    | _ => none)

/-- An environment in which every call of the start-up succeeds and the
exclusive semget creates the semaphore. -/
def okSys : Sys :=
  { semgetExcl := 0, semgetPlain := 0, shmFd := 3, ftruncateRet := 0, mmapFailed := false }

/-- An environment in which both semget calls fail and everything else succeeds. -/
def noSemSys : Sys :=
  { semgetExcl := -1, semgetPlain := -1, shmFd := 3, ftruncateRet := 0, mmapFailed := false }

/-- An environment in which ftruncate fails and everything else succeeds. -/
def noTruncSys : Sys :=
  { semgetExcl := 0, semgetPlain := 0, shmFd := 3, ftruncateRet := -1, mmapFailed := false }

/-- An environment in which shm_open fails. -/
def noShmSys : Sys :=
  { semgetExcl := 0, semgetPlain := 0, shmFd := -1, ftruncateRet := 0, mmapFailed := false }

/-- Lengths a program passes to mmap and to munmap. -/
structure MapLens where
  /-- Length passed to mmap. -/
  mmapLen : Nat
  /-- Length passed to munmap. -/
  munmapLen : Nat
deriving DecidableEq

/-- The lengths in mmap_sec.c: mmap(NULL, sizeof(line), ...) at line 109 and
munmap(p, sizeof(line)) at line 178, with `char line[4096]`. -/
def mmap_sec_lens : MapLens := { mmapLen := 4096, munmapLen := 4096 }

/-- The lengths in mmap_rec.c: mmap(NULL, 4096, ...) at line 85 and
munmap(p, sizeof(char)) at line 127. -/
def mmap_rec_lens : MapLens := { mmapLen := 4096, munmapLen := 1 }

/-- Number of IPC_RMID calls the requester has behind it, read off its program
point. -/
def rmidDone (s : State) : Nat :=
  if s.rpc = RPc.close ∨ s.rpc = RPc.done then 1 else 0

/-- Number of shm_unlink calls the responder has behind it, read off its
program point. -/
def unlinkDone (s : State) : Nat :=
  if s.spc = SPc.done then 1 else 0

end Shm

/-! # File modes (chapter06: mymask.c) -/

namespace Mymask

/-- The complement `~x` of a 32-bit value. -/
def compl32 (x : Nat) : Nat := (2 ^ 32 - 1) ^^^ (x % 2 ^ 32)

/-- The mode mymask passes to chmod: `mode = buf.st_mode & ~0066` (line 81), with
mode_t an unsigned 32-bit integer. -/
def newMode (st_mode : Nat) : Nat := (st_mode % 2 ^ 32) &&& compl32 0o66

/-- The mode the comment at lines 83-104 describes: the write and execute
permissions of group and others (0020, 0010, 0002, 0001) removed. -/
def describedMode (st_mode : Nat) : Nat := (st_mode % 2 ^ 32) &&& compl32 0o33

end Mymask

/-! # Command lines (chapter05: shell_option.c, chapter08: shell_pipe.c)

The tokenizer get_arg2 (and get_arg, the same loop with the separator " ").
The string `c` is given by its bytes before the NUL; a token stored in the
argument array is the string its pointer designates, and NULL is `none`. -/

namespace Shell

/-- An array of `char *`: each entry is NULL (`none`) or points to a string. -/
abbrev Args := List (Option (List Nat))

/-- What can go wrong in the model of get_arg2. -/
inductive Fault
  /-- A store into the argument array beyond its last entry. -/
  | outOfBounds
  /-- The bound on the number of iterations of the model was reached. -/
  | fuel
deriving DecidableEq

/-- Whether a character occurs in the separator string `sym`. -/
def isSep (sym : List Nat) (x : Nat) : Bool := sym.contains x

/-- Model of strtok on the string still to be scanned (the argument of the first
call, or what the previous call left): leading separators are skipped; if nothing
is left the result is NULL; otherwise the token runs up to the next separator,
which is overwritten with NUL, and the scan resumes behind it. -/
def strtok (s sym : List Nat) : Option (List Nat) × List Nat :=
  match s.dropWhile (isSep sym) with
  | [] => (none, [])
  | x :: xs =>
    (some ((x :: xs).takeWhile (fun y => !isSep sym y)),
      ((x :: xs).dropWhile (fun y => !isSep sym y)).drop 1)

/-- The store `arg[i] = v`. -/
def store (arg : Args) (i : Nat) (v : Option (List Nat)) : Except Fault Args :=
  if i < arg.length then .ok (arg.set i v) else .error .outOfBounds

/-- The loop `while(arg[i] != NULL){ i++; arg[i] = strtok(NULL, sym); }` with the
value just stored in `arg[i]`, the string strtok has still to scan, `i` and the
array; the first argument bounds the number of iterations. -/
def get_arg2_loop (sym : List Nat) :
    Nat → Option (List Nat) → List Nat → Nat → Args → Except Fault (Nat × Args)
  | _, none, _, i, arg => .ok (i, arg)
  | 0, some _, _, _, _ => .error .fuel
  | fuel + 1, some _, rest, i, arg =>
    match store arg (i + 1) (strtok rest sym).1 with
    | .error f => .error f
    | .ok arg2 => get_arg2_loop sym fuel (strtok rest sym).1 (strtok rest sym).2 (i + 1) arg2

/-- The function get_arg2(c, arg, sym) of shell_pipe.c (lines 307-326): the value
returned and the array afterwards. -/
def get_arg2 (c : List Nat) (arg : Args) (sym : List Nat) : Except Fault (Nat × Args) :=
  match store arg 0 (strtok c sym).1 with
  | .error f => .error f
  | .ok arg1 => get_arg2_loop sym (c.length + 1) (strtok c sym).1 (strtok c sym).2 0 arg1

/-- The function get_arg(c, arg) of shell_option.c (lines 170-191): the loop of
get_arg2 with the separator " ". -/
def get_arg (c : List Nat) (arg : Args) : Except Fault (Nat × Args) :=
  get_arg2 c arg [32]

/-- The tokens of a string as the claim describes them: the maximal non-empty
runs of characters that are not separators. -/
def tokensSpec (c sym : List Nat) : List (List Nat) :=
  (c.splitOnP (isSep sym)).filter (fun t => !t.isEmpty)

/-- An argument array of 32 null pointers (`char *arg[32]`). -/
def emptyArgs : Args := List.replicate 32 none

end Shell

/-! # Command lines again: the bar and the size of the argument array -/

namespace Shell

/-- A command line of 63 characters with 32 arguments: "a a ... a". -/
def manyArgs : List Nat := (List.replicate 31 [97, 32]).flatten ++ [97]

end Shell

/-! # A linked list in an array (chapter01: linearlist.c)

A pointer to an element of `arr` is the index of the element; the index 5 stands
for the address one past the last element, and NULL is `none`. -/

namespace Linearlist

/-- The structure `struct linear`. -/
structure Linear where
  /-- The member `data`. -/
  data : Int
  /-- The member `next`: NULL, or the index of the element pointed to. -/
  next : Option Nat
deriving DecidableEq

/-- The variables of main during the construction of the list. -/
structure Vars where
  /-- The array `arr[5]`. -/
  arr : List Linear
  /-- The pointer `ptr`, as an index into `arr`. -/
  ptr : Nat
  /-- The pointer `curr`, as an index into `arr`. -/
  curr : Nat
  /-- The numbers still to be read from standard input. -/
  stdin : List Int
deriving DecidableEq

/-- Model of scanf("%d", &x): the new value of `x` and the rest of the input;
when no number can be read `x` keeps its old value. -/
def scanf (stdin : List Int) (old : Int) : Int × List Int :=
  match stdin with
  | [] => (old, [])
  | v :: rest => (v, rest)

/-- The body of the for loop (lines 70-87): `scanf("%d", &ptr->data); curr = ptr;
curr->next = ++ptr;`.  The result is `none` when `ptr` does not point into the
array. -/
def body (m : Vars) : Option Vars :=
  match m.arr[m.ptr]? with
  | none => none
  | some nd =>
    some { arr := m.arr.set m.ptr
             { data := (scanf m.stdin nd.data).1, next := some (m.ptr + 1) },
           ptr := m.ptr + 1, curr := m.ptr, stdin := (scanf m.stdin nd.data).2 }

/-- The loop `for(i = 0; i < 5; i++)` from the given `i` on; the first argument
bounds the number of tests of the condition (`none` when it is used up). -/
def forLoop : Nat → Nat → Vars → Option Vars
  | 0, _, _ => none
  | fuel + 1, i, m => if i < 5 then (body m).bind (forLoop fuel (i + 1)) else some m

/-- Lines 56-113: `ptr = arr`, the for loop, `curr->next = NULL`, `ptr = arr`. -/
def construct (m : Vars) : Option Vars :=
  (forLoop 6 0 { m with ptr := 0 }).bind (fun m1 =>
    match m1.arr[m1.curr]? with
    | none => none
    | some nd =>
      some { m1 with arr := m1.arr.set m1.curr { nd with next := none }, ptr := 0 })

/-- The loop `while(ptr != NULL){ fprintf(..., ptr->data); ptr = ptr->next; }`
(lines 122-143): the nodes visited, each with the value printed.  The first
argument bounds the number of iterations; the result is `none` when it is used
up or when `ptr` does not point into the array. -/
def traverse : Nat → Option Nat → List Linear → List (Nat × Int) → Option (List (Nat × Int))
  | _, none, _, out => some out
  | 0, some _, _, _ => none
  | fuel + 1, some p, arr, out =>
    match arr[p]? with
    | none => none
    | some nd => traverse fuel nd.next arr (out ++ [(p, nd.data)])

end Linearlist

/-! # Disk usage (chapter06: mydf.c) -/

namespace Mydf

/-- Conversion of an unsigned value to `int` (32 bits, two's complement). -/
def toInt (x : Nat) : Int :=
  if x % 2 ^ 32 < 2 ^ 31 then ((x % 2 ^ 32 : Nat) : Int)
  else ((x % 2 ^ 32 : Nat) : Int) - 2 ^ 32

/-- The statement `ubs = buf.f_blocks - buf.f_bfree` (line 105): the difference
is taken in the unsigned 64-bit type of the two fields and stored in the `int`
variable `ubs`. -/
def ubs (f_blocks f_bfree : Nat) : Int :=
  toInt ((f_blocks % 2 ^ 64 + 2 ^ 64 - f_bfree % 2 ^ 64) % 2 ^ 64)

end Mydf

/-! # Reading a word (chapter10: client_socket.c) -/

namespace Client

/-- The macro BUF_SIZE. -/
def BUF_SIZE : Nat := 256

/-- The index `strlen(word) - 1`, computed in the unsigned 64-bit type size_t. -/
def lastIndex (word : Shm.Buf) : Nat :=
  (Shm.strlen word + 2 ^ 64 - 1) % 2 ^ 64

/-- Lines 129-141: `memset(word, 0, BUF_SIZE)`, `fgets(word, sizeof(word), stdin)`
and `word[strlen(word) - 1] = 0`: the index written and the array afterwards, or
`none` when the index is outside the array. -/
def readWord (stdin : List Nat) : Option (Nat × Shm.Buf) :=
  if lastIndex (Shm.fgets (List.replicate BUF_SIZE 0) BUF_SIZE stdin).1 < BUF_SIZE then
    some (lastIndex (Shm.fgets (List.replicate BUF_SIZE 0) BUF_SIZE stdin).1,
      (Shm.fgets (List.replicate BUF_SIZE 0) BUF_SIZE stdin).1.set
        (lastIndex (Shm.fgets (List.replicate BUF_SIZE 0) BUF_SIZE stdin).1) 0)
  else none

/-- Line 150: the bytes passed to send, `strlen(word)` bytes of `word`. -/
def sent (stdin : List Nat) : Option (List Nat) :=
  (readWord stdin).map (fun r => Shm.cstr r.2)

end Client

/-! # The channel again: loops and deadlock -/

namespace Shm

/-- The requester is inside its loop (it has not taken a break). -/
def reqInLoop (s : State) : Bool :=
  s.rpc = .wait1 || s.rpc = .input || s.rpc = .add2 || s.rpc = .wait2 || s.rpc = .print ||
    s.rpc = .add1

/-- The responder is inside its loop (it has not taken its break). -/
def respInLoop (s : State) : Bool :=
  s.spc = .wait || s.spc = .check || s.spc = .len || s.spc = .reply || s.spc = .add1

/-- Whenever both endpoints stand at a wait, the requester's wait would return. -/
def WaitsServed (s : State) : Prop :=
  (s.rpc = .wait1 ∨ s.rpc = .wait2) → s.spc = .wait → (semWait 1 s.sem).isSome = true

end Shm

namespace Shm

/-! ## Facts about the string primitives -/

theorem cstr_cons_zero (b : Buf) : cstr (0 :: b) = [] := by
  simp [cstr]

theorem cstr_cons_ne {c : Nat} (h : c ≠ 0) (b : Buf) : cstr (c :: b) = c :: cstr b := by
  simp [cstr, h]

theorem cstr_length_le (b : Buf) : (cstr b).length ≤ b.length := by
  induction b with
  | nil => simp [cstr]
  | cons c b ih =>
    by_cases h : c = 0
    · subst h; simp [cstr_cons_zero]
    · rw [cstr_cons_ne h]; simp only [List.length_cons]; omega

theorem cstr_ne_zero {b : Buf} {c : Nat} (h : c ∈ cstr b) : c ≠ 0 := by
  have := List.mem_takeWhile_imp h
  simpa using this

/-- A run of non-NUL bytes followed by a NUL is the string of the buffer. -/
theorem cstr_append_zero (m r : Buf) (hm : ∀ c ∈ m, c ≠ 0) : cstr (m ++ 0 :: r) = m := by
  induction m with
  | nil => simp [cstr]
  | cons c m ih =>
    have hc : c ≠ 0 := hm c (by simp)
    have hm2 : ∀ d ∈ m, d ≠ 0 := fun d hd => hm d (by simp [hd])
    rw [List.cons_append, cstr_cons_ne hc, ih hm2]

/-- Whatever precedes a NUL bounds the length of the string. -/
theorem strlen_append_zero_le (m r : Buf) : strlen (m ++ 0 :: r) ≤ m.length := by
  induction m with
  | nil => simp [strlen, cstr]
  | cons c m ih =>
    by_cases hc : c = 0
    · subst hc; simp [strlen, cstr_cons_zero]
    · simp only [strlen] at ih ⊢
      rw [List.cons_append, cstr_cons_ne hc]
      simp only [List.length_cons]; omega

theorem strncpy_length (dst src : Buf) (n : Nat) :
    (strncpy dst src n).length = dst.length := by
  induction n generalizing dst src with
  | zero => cases dst <;> simp [strncpy]
  | succ n ih =>
    cases dst with
    | nil => simp [strncpy]
    | cons d ds =>
      cases src with
      | nil => simp [strncpy, ih]
      | cons c s =>
        by_cases h : c = 0
        · simp [strncpy, h, ih]
        · simp [strncpy, h, ih]

/-- Closed form of strncpy when the destination has room for `n` bytes. -/
theorem strncpy_eq (dst src : Buf) (n : Nat) (hn : n ≤ dst.length) :
    strncpy dst src n =
      (cstr src).take n ++ (List.replicate (n - (cstr src).length) 0 ++ dst.drop n) := by
  induction n generalizing dst src with
  | zero => cases dst <;> simp [strncpy]
  | succ n ih =>
    cases dst with
    | nil => simp at hn
    | cons d ds =>
      have hn2 : n ≤ ds.length := by simpa using hn
      cases src with
      | nil =>
        have h0 := ih ds [] hn2
        simp only [cstr, List.takeWhile_nil, List.take_nil, List.length_nil, Nat.sub_zero,
          List.nil_append] at h0 ⊢
        simp [strncpy, h0, List.replicate_succ]
      | cons c s =>
        by_cases h : c = 0
        · subst h
          have h0 := ih ds [] hn2
          simp only [cstr, List.takeWhile_nil, List.take_nil, List.length_nil, Nat.sub_zero,
            List.nil_append] at h0
          simp [strncpy, h0, cstr_cons_zero, List.replicate_succ]
        · simp [strncpy, h, ih ds s hn2, cstr_cons_ne h]

/-- A string that fits is copied whole: the destination then holds it. -/
theorem strncpy_cstr (dst src : Buf) (n : Nat) (hn : n ≤ dst.length)
    (hs : strlen src < n) : cstr (strncpy dst src n) = cstr src := by
  rw [strncpy_eq dst src n hn]
  have hk : n - (cstr src).length = (n - (cstr src).length - 1) + 1 := by
    simp only [strlen] at hs; omega
  rw [List.take_of_length_le (by simp only [strlen] at hs; omega), hk, List.replicate_succ,
    List.cons_append]
  exact cstr_append_zero _ _ (fun c hc => cstr_ne_zero hc)

/-- Every byte between the end of the copied string and `n` is NUL. -/
theorem strncpy_zero_after (dst src : Buf) (n i : Nat) (hn : n ≤ dst.length)
    (h1 : strlen src ≤ i) (h2 : i < n) : (strncpy dst src n)[i]? = some 0 := by
  rw [strncpy_eq dst src n hn]
  simp only [strlen] at h1
  have hl : ((cstr src).take n).length ≤ i := by
    simp only [List.length_take]; omega
  rw [List.getElem?_append_right hl]
  have hl2 : i - ((cstr src).take n).length < (List.replicate (n - (cstr src).length) 0).length := by
    simp only [List.length_take, List.length_replicate]; omega
  rw [List.getElem?_append_left hl2]
  simp only [List.length_replicate] at hl2
  rw [List.getElem?_replicate]
  simp only [hl2, if_true]

/-- The result of strcmp is 0 exactly when the two strings are equal. -/
theorem strcmp_eq_zero_iff (a b : Buf) : strcmp a b = 0 ↔ cstr a = cstr b := by
  induction a generalizing b with
  | nil =>
    cases b with
    | nil => simp [strcmp, cstr]
    | cons y ys =>
      by_cases hy : y = 0
      · subst hy; simp [strcmp, cstr]
      · have : (y : Int) ≠ 0 := by exact_mod_cast hy
        simp [strcmp, cstr, hy, this]
  | cons x xs ih =>
    cases b with
    | nil =>
      by_cases hx : x = 0
      · subst hx; simp [strcmp, cstr]
      · have : (x : Int) ≠ 0 := by exact_mod_cast hx
        simp [strcmp, cstr, hx, this]
    | cons y ys =>
      by_cases hxy : x = y
      · subst hxy
        by_cases hx : x = 0
        · subst hx; simp [strcmp, cstr]
        · simp [strcmp, hx, cstr_cons_ne hx, ih ys]
      · have hne : (x : Int) - (y : Int) ≠ 0 := by
          intro h; apply hxy; omega
        by_cases hx : x = 0
        · subst hx
          have hy : y ≠ 0 := fun h => hxy h.symm
          simp [strcmp, hxy, cstr_cons_zero, cstr_cons_ne hy, hy]
        · by_cases hy : y = 0
          · subst hy
            simp [strcmp, hxy, hne, cstr_cons_zero, cstr_cons_ne hx]
          · simp [strcmp, hxy, hne, cstr_cons_ne hx, cstr_cons_ne hy]

theorem fgetsLine_length_le (k : Nat) (l : List Nat) : (fgetsLine k l).length ≤ k := by
  induction k generalizing l with
  | zero => simp [fgetsLine]
  | succ k ih =>
    cases l with
    | nil => simp [fgetsLine]
    | cons c cs =>
      by_cases h : c = 10
      · simp [fgetsLine, h]
      · simp only [fgetsLine, h, if_false, List.length_cons]
        have := ih cs; omega

theorem fgetsLine_ne_nil (k : Nat) (l : List Nat) (hl : l ≠ []) : fgetsLine (k + 1) l ≠ [] := by
  cases l with
  | nil => exact absurd rfl hl
  | cons c cs =>
    by_cases h : c = 10
    · simp [fgetsLine, h]
    · simp [fgetsLine, h]

/-! ## Facts about the decimal conversion -/

theorem decimalAux_ne_zero (fuel n : Nat) (acc : List Nat) (hacc : ∀ c ∈ acc, c ≠ 0) :
    ∀ c ∈ decimalAux fuel n acc, c ≠ 0 := by
  induction fuel generalizing n acc with
  | zero => simpa [decimalAux] using hacc
  | succ fuel ih =>
    have hacc2 : ∀ c ∈ (48 + n % 10) :: acc, c ≠ 0 := by
      intro c hc
      rcases List.mem_cons.mp hc with h | h
      · omega
      · exact hacc c h
    by_cases h : n / 10 = 0
    · simpa [decimalAux, h] using hacc2
    · simp only [decimalAux, h, if_false]
      exact ih (n / 10) _ hacc2

theorem decimal_ne_zero (n : Nat) : ∀ c ∈ decimal n, c ≠ 0 :=
  decimalAux_ne_zero (n + 1) n [] (by simp)

theorem decimalAux_length_le (fuel n k : Nat) (acc : List Nat) (hk : 0 < k) (hn : n < 10 ^ k) :
    (decimalAux fuel n acc).length ≤ acc.length + k := by
  induction fuel generalizing n k acc with
  | zero => simp [decimalAux]
  | succ fuel ih =>
    by_cases h : n / 10 = 0
    · simp only [decimalAux, h, if_true, List.length_cons]; omega
    · simp only [decimalAux, h, if_false]
      have h10 : 10 ≤ n := by
        by_contra hlt
        exact h (Nat.div_eq_of_lt (by omega))
      have hk2 : 0 < k - 1 := by
        rcases Nat.lt_or_ge 1 k with h1 | h1
        · omega
        · have hk1 : k = 1 := by omega
          subst hk1
          simp at hn; omega
      have hn2 : n / 10 < 10 ^ (k - 1) := by
        have hpow : 10 ^ k = 10 ^ (k - 1) * 10 := by
          rw [← pow_succ]; congr 1; omega
        rw [hpow] at hn
        exact Nat.div_lt_of_lt_mul (by rw [Nat.mul_comm]; exact hn)
      have := ih (n / 10) (k - 1) ((48 + n % 10) :: acc) hk2 hn2
      simp only [List.length_cons] at this
      omega

/-- A number below 10000 prints with at most four digits. -/
theorem decimal_length_le_four (n : Nat) (hn : n < 10000) : (decimal n).length ≤ 4 := by
  have := decimalAux_length_le (n + 1) n 4 [] (by omega) (by norm_num; exact hn)
  simpa [decimal] using this

theorem decimalAux_eq_digits (fuel n : Nat) (acc : List Nat) (h0 : 0 < n) (hf : n < fuel) :
    decimalAux fuel n acc = ((Nat.digits 10 n).reverse.map (fun d => 48 + d)) ++ acc := by
  induction fuel generalizing n acc with
  | zero => omega
  | succ fuel ih =>
    by_cases h : n / 10 = 0
    · have hlt : n < 10 := by
        by_contra hge
        have : 0 < n / 10 := Nat.div_pos (by omega) (by omega)
        omega
      rw [Nat.digits_of_lt 10 n (by omega) hlt]
      simp [decimalAux, h, Nat.mod_eq_of_lt hlt]
    · have hpos : 0 < n / 10 := Nat.pos_of_ne_zero h
      have hlt : n / 10 < fuel := by
        have : n / 10 < n := Nat.div_lt_self h0 (by omega)
        omega
      rw [Nat.digits_def' (by omega) h0]
      simp [decimalAux, h, ih (n / 10) _ hpos hlt]

/-- The bytes printed for `n` are its base-ten digits, most significant first,
as ASCII characters; zero prints as "0". -/
theorem decimal_eq_digits (n : Nat) :
    decimal n = if n = 0 then [48] else (Nat.digits 10 n).reverse.map (fun d => 48 + d) := by
  by_cases h : n = 0
  · subst h; rfl
  · simp only [h, if_false]
    have := decimalAux_eq_digits (n + 1) n [] (Nat.pos_of_ne_zero h) (by omega)
    simpa [decimal] using this

/-- The array written by snprintf always holds a NUL among its first `CAP` bytes. -/
theorem snprintf_strlen_lt (count : Buf) (n : Nat) : strlen (snprintf count CAP n) < CAP := by
  have h := strlen_append_zero_le ((decimal n).take (CAP - 1))
    (count.drop (((decimal n).take (CAP - 1)).length + 1))
  have h2 : ((decimal n).take (CAP - 1)).length ≤ CAP - 1 := by
    simp only [List.length_take]; omega
  have hc : CAP ≠ 0 := by decide
  simp only [snprintf, hc, if_false]
  have hcap : CAP = 4096 := rfl
  omega

/-- When the digits fit, the array written by snprintf holds exactly them. -/
theorem snprintf_cstr (count : Buf) (n : Nat) (hlen : (decimal n).length ≤ CAP - 1) :
    cstr (snprintf count CAP n) = decimal n := by
  have hc : CAP ≠ 0 := by decide
  simp only [snprintf, hc, if_false]
  rw [List.take_of_length_le hlen]
  exact cstr_append_zero _ _ (decimal_ne_zero n)

/-! ## The claims -/

theorem zeros_length : zeros.length = CAP := by
  rw [zeros, List.length_replicate]; rfl

theorem appleBuf_length : appleBuf.length = CAP := by
  rw [appleBuf, List.length_append, List.length_replicate]; rfl

theorem exitBuf_length : exitBuf.length = CAP := by
  rw [exitBuf, List.length_append, List.length_replicate]; rfl

/-- One pass of the responder through strcmp, strlen, snprintf and strncpy on a
region that holds a string other than "exit". -/
theorem resp_reply_run (s : State) (hpc : s.spc = .check) (hlen : s.p.length = CAP)
    (hterm : strlen s.p < CAP) (hne : cstr s.p ≠ [101, 120, 105, 116]) :
    ∃ t, run [.resp, .resp, .resp] s = some t ∧ t.spc = .add1 ∧ t.sem = s.sem ∧
      t.p.length = CAP ∧ cstr t.p = decimal (strlen s.p) := by
  have hcmp : strcmp s.p exitLit ≠ 0 := by
    rw [Ne, strcmp_eq_zero_iff]
    simpa [exitLit, cstr] using hne
  have hcap : CAP = 4096 := rfl
  have hd : (decimal (strlen s.p)).length ≤ CAP - 1 := by
    have := decimal_length_le_four (strlen s.p) (by omega)
    omega
  have h1 : strlen (snprintf s.count CAP (strlen s.p)) < 4096 := by
    have := snprintf_strlen_lt s.count (strlen s.p); omega
  have hrun : run [.resp, .resp, .resp] s = some
      { s with seen := s.seen ++ [cstr s.p], ret1 := strcmp s.p exitLit, n := strlen s.p,
               count := snprintf s.count CAP (strlen s.p),
               p := strncpy s.p (snprintf s.count CAP (strlen s.p)) 4096, spc := .add1 } := by
    simp [run, step, stepResp, hpc, hcmp]
  refine ⟨_, hrun, rfl, rfl, ?_, ?_⟩
  · simp only [strncpy_length]; exact hlen
  · simp only
    rw [strncpy_cstr _ _ 4096 (by omega) h1]
    exact snprintf_cstr _ _ hd

/-- C2: for a region of 4096 bytes holding a NUL-terminated string other than
"exit", one iteration of the responder (strcmp, strlen, snprintf with "%d",
strncpy into the region) leaves the region holding the decimal representation of
the length of that string, NUL-terminated; "Apple" gives "5" and "Ball" gives "4". -/
theorem responder_writes_decimal_length (s : State) (hpc : s.spc = .check)
    (hlen : s.p.length = CAP) (hterm : strlen s.p < CAP)
    (hne : cstr s.p ≠ [101, 120, 105, 116]) :
    ∃ t, run [.resp, .resp, .resp] s = some t ∧ t.spc = .add1 ∧ Terminated t.p ∧
      cstr t.p = (if strlen s.p = 0 then [48]
        else (Nat.digits 10 (strlen s.p)).reverse.map (fun d => 48 + d)) ∧
      (cstr s.p = [65, 112, 112, 108, 101] → cstr t.p = [53]) ∧
      (cstr s.p = [66, 97, 108, 108] → cstr t.p = [52]) := by
  obtain ⟨t, hrun, hspc, -, htl, hstr⟩ := resp_reply_run s hpc hlen hterm hne
  have hcap : CAP = 4096 := rfl
  refine ⟨t, hrun, hspc, ?_, ?_, ?_, ?_⟩
  · have := decimal_length_le_four (strlen s.p) (by omega)
    show (cstr t.p).length < t.p.length
    rw [hstr, htl]
    omega
  · rw [hstr, decimal_eq_digits]
  · intro h; rw [hstr]; simp only [strlen, h]; decide
  · intro h; rw [hstr]; simp only [strlen, h]; decide

theorem responder_writes_decimal_length_witness :
    (atCheck appleBuf).spc = .check ∧ (atCheck appleBuf).p.length = CAP ∧
      strlen (atCheck appleBuf).p < CAP ∧ cstr (atCheck appleBuf).p ≠ [101, 120, 105, 116] ∧
      ∃ t, run [.resp, .resp, .resp] (atCheck appleBuf) = some t ∧ cstr t.p = [53] := by
  have h1 : (atCheck appleBuf).spc = .check := rfl
  have h2 : (atCheck appleBuf).p.length = CAP := appleBuf_length
  have h3 : strlen (atCheck appleBuf).p < CAP := by decide
  have h4 : cstr (atCheck appleBuf).p ≠ [101, 120, 105, 116] := by decide
  obtain ⟨t, hrun, -, -, -, ha, -⟩ :=
    responder_writes_decimal_length (atCheck appleBuf) h1 h2 h3 h4
  exact ⟨h1, h2, h3, h4, t, hrun, ha (by decide)⟩

/-- C3: for buffers holding strings a and b with len(b) < len(a) < 4096, writing
a and then b into a 4096-byte region with strncpy and n = 4096 leaves a region
whose string is exactly b and whose bytes after b are all NUL. -/
theorem no_stale_bytes (p a b : Buf) (hp : p.length = CAP) (hba : strlen b < strlen a)
    (ha : strlen a < CAP) :
    cstr (strncpy (strncpy p a CAP) b CAP) = cstr b ∧
      (∀ i, strlen b ≤ i → i < CAP → (strncpy (strncpy p a CAP) b CAP)[i]? = some 0) ∧
      (strncpy (strncpy p a CAP) b CAP).length = CAP := by
  have hl : (strncpy p a CAP).length = CAP := by rw [strncpy_length]; exact hp
  refine ⟨?_, ?_, ?_⟩
  · exact strncpy_cstr _ _ CAP (by omega) (by omega)
  · intro i h1 h2
    exact strncpy_zero_after _ _ CAP i (by omega) h1 h2
  · rw [strncpy_length]; exact hl

theorem no_stale_bytes_witness :
    zeros.length = CAP ∧ strlen ballBuf < strlen appleBuf ∧ strlen appleBuf < CAP ∧
      cstr (strncpy (strncpy zeros appleBuf CAP) ballBuf CAP) = cstr ballBuf :=
  ⟨zeros_length, by decide, by decide,
    (no_stale_bytes zeros appleBuf ballBuf zeros_length (by decide) (by decide)).1⟩

/-- C6: when the command read by the requester is "exit", the requester copies
"exit" into the region, adds 2 to the semaphore, and then leaves its loop: its
next program point is the munmap after the loop, it reaches its return without a
second wait, and it prints no response. -/
theorem requester_sends_sentinel (s : State) (v : Nat) (hpc : s.rpc = .input)
    (hsem : s.sem = some v) (hp : s.p.length = CAP)
    (hret : 0 ≤ (sscanf (fgets s.line CAP s.stdin).1 s.command).1)
    (hcmd : cstr (sscanf (fgets s.line CAP s.stdin).1 s.command).2 = [101, 120, 105, 116]) :
    ∃ t u w, stepReq s = some t ∧ cstr t.p = [101, 120, 105, 116] ∧ t.rpc = .add2 ∧
      t.sem = some v ∧
      stepReq t = some u ∧ u.sem = some (v + 2) ∧ u.rpc = .unmap ∧ u.p = t.p ∧
      u.shown = s.shown ∧
      run [.req, .req, .req] u = some w ∧ w.rpc = .done ∧ w.p = t.p ∧ w.shown = s.shown := by
  have hcap : CAP = 4096 := rfl
  have hnlt : ¬ (sscanf (fgets s.line CAP s.stdin).1 s.command).1 < 0 := by omega
  have hz : strcmp (sscanf (fgets s.line CAP s.stdin).1 s.command).2 exitLit = 0 := by
    rw [strcmp_eq_zero_iff, hcmd]; decide
  obtain ⟨t, ht, htp, htpc, htsem, htret, htshown⟩ : ∃ t, stepReq s = some t ∧
      cstr t.p = [101, 120, 105, 116] ∧ t.rpc = .add2 ∧ t.sem = some v ∧ t.ret3 = 0 ∧
      t.shown = s.shown := by
    have ht : stepReq s = some
        { s with stdin := (fgets s.line CAP s.stdin).2, line := (fgets s.line CAP s.stdin).1,
                 command := (sscanf (fgets s.line CAP s.stdin).1 s.command).2,
                 ret3 := strcmp (sscanf (fgets s.line CAP s.stdin).1 s.command).2 exitLit,
                 p := strncpy s.p (sscanf (fgets s.line CAP s.stdin).1 s.command).2 CAP,
                 rpc := .add2 } := by
      simp [stepReq, hpc, hnlt]
    refine ⟨_, ht, ?_, rfl, hsem, hz, rfl⟩
    show cstr (strncpy s.p (sscanf (fgets s.line CAP s.stdin).1 s.command).2 CAP) = _
    rw [strncpy_cstr _ _ CAP (by omega)
      (by simp only [strlen, hcmd, List.length_cons, List.length_nil]; omega)]
    exact hcmd
  have hu : stepReq t = some { t with sem := semAdd 2 t.sem, rpc := .unmap } := by
    simp [stepReq, htpc, htret]
  have hw : run [.req, .req, .req] { t with sem := semAdd 2 t.sem, rpc := .unmap } = some
      { t with sem := none, rpc := .done, runmap := some CAP, rclosed := true } := by
    simp [run, step, stepReq]
  refine ⟨t, _, _, ht, htp, htpc, htsem, hu, ?_, rfl, rfl, htshown, hw, rfl, rfl, htshown⟩
  simp [semAdd, htsem]

theorem requester_sends_sentinel_witness :
    (atInput [101, 120, 105, 116, 10]).rpc = .input ∧
      (atInput [101, 120, 105, 116, 10]).sem = some 0 ∧
      ∃ t u, stepReq (atInput [101, 120, 105, 116, 10]) = some t ∧
        cstr t.p = [101, 120, 105, 116] ∧ stepReq t = some u ∧ u.sem = some 2 ∧
        u.rpc = .unmap := by
  obtain ⟨t, u, -, h1, h2, -, -, h3, h4, h5, -⟩ :=
    requester_sends_sentinel (atInput [101, 120, 105, 116, 10]) 0 rfl rfl zeros_length
      (by decide) (by decide)
  exact ⟨rfl, rfl, t, u, h1, h2, h3, h4, h5⟩

/-- C7: when the region holds "exit" right after the responder's wait returned,
the responder leaves its loop and runs munmap, close, shm_unlink and return, and
none of these steps changes the region or the semaphore; for any other content
the responder stays in its loop and goes on to strlen. -/
theorem responder_leaves_on_sentinel (s : State) (hpc : s.spc = .check) :
    (cstr s.p = [101, 120, 105, 116] →
      ∃ t1 t2 t3 t4, stepResp s = some t1 ∧ stepResp t1 = some t2 ∧ stepResp t2 = some t3 ∧
        stepResp t3 = some t4 ∧ stepResp t4 = none ∧
        t1.spc = .unmap ∧ t2.spc = .close ∧ t3.spc = .unlink ∧ t4.spc = .done ∧
        ∀ t ∈ [t1, t2, t3, t4], t.p = s.p ∧ t.sem = s.sem) ∧
    (cstr s.p ≠ [101, 120, 105, 116] →
      ∃ t, stepResp s = some t ∧ t.spc = .len ∧ t.p = s.p ∧ t.sem = s.sem) := by
  have hiff : strcmp s.p exitLit = 0 ↔ cstr s.p = [101, 120, 105, 116] := by
    rw [strcmp_eq_zero_iff]
    simp [exitLit, cstr]
  constructor
  · intro h
    have hz : strcmp s.p exitLit = 0 := hiff.mpr h
    have h1 : stepResp s = some
        { s with seen := s.seen ++ [cstr s.p], ret1 := strcmp s.p exitLit, spc := .unmap } := by
      simp [stepResp, hpc, hz]
    refine ⟨_, { s with seen := s.seen ++ [cstr s.p], ret1 := strcmp s.p exitLit,
                        sunmap := some 1, spc := .close },
      { s with seen := s.seen ++ [cstr s.p], ret1 := strcmp s.p exitLit,
               sunmap := some 1, sclosed := true, spc := .unlink },
      { s with seen := s.seen ++ [cstr s.p], ret1 := strcmp s.p exitLit,
               sunmap := some 1, sclosed := true, linked := false, spc := .done },
      h1, rfl, rfl, rfl, rfl, rfl, rfl, rfl, rfl, ?_⟩
    intro t ht
    simp only [List.mem_cons, List.mem_singleton, List.not_mem_nil, or_false] at ht
    rcases ht with h | h | h | h <;> subst h <;> exact ⟨rfl, rfl⟩
  · intro h
    have hz : strcmp s.p exitLit ≠ 0 := fun e => h (hiff.mp e)
    refine ⟨{ s with seen := s.seen ++ [cstr s.p], ret1 := strcmp s.p exitLit, spc := .len },
      ?_, rfl, rfl, rfl⟩
    simp [stepResp, hpc, hz]

theorem responder_leaves_on_sentinel_witness :
    (atCheck exitBuf).spc = .check ∧
      ∃ t1 t2 t3 t4, stepResp (atCheck exitBuf) = some t1 ∧ stepResp t1 = some t2 ∧
        stepResp t2 = some t3 ∧ stepResp t3 = some t4 ∧ t4.spc = .done ∧
        t4.p = exitBuf ∧ t4.sem = some 0 := by
  obtain ⟨t1, t2, t3, t4, h1, h2, h3, h4, -, -, -, -, h5, h6⟩ :=
    (responder_leaves_on_sentinel (atCheck exitBuf) rfl).1 (by decide)
  have h7 := h6 t4 (by simp)
  exact ⟨rfl, t1, t2, t3, t4, h1, h2, h3, h4, h5, h7.1, h7.2⟩

/-- The string that sscanf stores from a line read by fgets has at most 4095
bytes. -/
theorem sscanf_request_length (line : Buf) (stdin : List Nat) (hin : stdin ≠ []) :
    ((cstr (fgets line CAP stdin).1).takeWhile (fun c => c != 10)).length ≤ 4095 := by
  have hne : fgetsLine (CAP - 1) stdin ≠ [] := fgetsLine_ne_nil 4094 stdin hin
  have hle : (fgetsLine (CAP - 1) stdin).length ≤ CAP - 1 := fgetsLine_length_le _ _
  have h1 : strlen (fgets line CAP stdin).1 ≤ (fgetsLine (CAP - 1) stdin).length := by
    simp only [fgets, hne, if_false]
    exact strlen_append_zero_le _ _
  have h2 : ((cstr (fgets line CAP stdin).1).takeWhile (fun c => c != 10)).length ≤
      (cstr (fgets line CAP stdin).1).length := (List.takeWhile_sublist _).length_le
  have hcap : CAP = 4096 := rfl
  simp only [strlen] at h1
  omega

/-- C10: a line read by fgets(line, 4096) with at least one character before its
newline makes the requester write a request of at most 4095 characters that is
NUL-terminated inside the 4096-byte region, and every reply step of the
responder leaves the region NUL-terminated as well. -/
theorem payload_bound (s : State) (hp : s.p.length = CAP) :
    (s.rpc = .input → s.stdin ≠ [] →
      (cstr (fgets s.line CAP s.stdin).1).takeWhile (fun c => c != 10) ≠ [] →
      ∃ t, stepReq s = some t ∧ t.rpc = .add2 ∧ t.p.length = CAP ∧ strlen t.p ≤ 4095 ∧
        Terminated t.p ∧
        cstr t.p = (cstr (fgets s.line CAP s.stdin).1).takeWhile (fun c => c != 10)) ∧
    (s.spc = .reply →
      ∃ t, stepResp s = some t ∧ t.spc = .add1 ∧ t.p.length = CAP ∧ Terminated t.p) := by
  have hcap : CAP = 4096 := rfl
  constructor
  · intro hpc hin hm
    have hlen := sscanf_request_length s.line s.stdin hin
    have hs : cstr (fgets s.line CAP s.stdin).1 ≠ [] := by
      intro h; rw [h] at hm; exact hm rfl
    have hmz : ∀ c ∈ (cstr (fgets s.line CAP s.stdin).1).takeWhile (fun c => c != 10), c ≠ 0 :=
      fun c hc => cstr_ne_zero ((List.takeWhile_sublist _).subset hc)
    have hsc : sscanf (fgets s.line CAP s.stdin).1 s.command =
        (1, (cstr (fgets s.line CAP s.stdin).1).takeWhile (fun c => c != 10) ++
          0 :: s.command.drop
            (((cstr (fgets s.line CAP s.stdin).1).takeWhile (fun c => c != 10)).length + 1)) := by
      simp only [sscanf, hs, hm, if_false]
    have hcmd : cstr (sscanf (fgets s.line CAP s.stdin).1 s.command).2 =
        (cstr (fgets s.line CAP s.stdin).1).takeWhile (fun c => c != 10) := by
      rw [hsc]; exact cstr_append_zero _ _ hmz
    have hnlt : ¬ (sscanf (fgets s.line CAP s.stdin).1 s.command).1 < 0 := by
      rw [hsc]; show ¬ ((1 : Int) < 0); omega
    have ht : stepReq s = some
        { s with stdin := (fgets s.line CAP s.stdin).2, line := (fgets s.line CAP s.stdin).1,
                 command := (sscanf (fgets s.line CAP s.stdin).1 s.command).2,
                 ret3 := strcmp (sscanf (fgets s.line CAP s.stdin).1 s.command).2 exitLit,
                 p := strncpy s.p (sscanf (fgets s.line CAP s.stdin).1 s.command).2 CAP,
                 rpc := .add2 } := by
      simp [stepReq, hpc, hnlt]
    have hstr : cstr (strncpy s.p (sscanf (fgets s.line CAP s.stdin).1 s.command).2 CAP) =
        (cstr (fgets s.line CAP s.stdin).1).takeWhile (fun c => c != 10) := by
      rw [strncpy_cstr _ _ CAP (by omega) (by simp only [strlen, hcmd]; omega)]
      exact hcmd
    have hl : (strncpy s.p (sscanf (fgets s.line CAP s.stdin).1 s.command).2 CAP).length = CAP := by
      rw [strncpy_length]; exact hp
    refine ⟨_, ht, rfl, hl, ?_, ?_, hstr⟩
    · show (cstr (strncpy s.p (sscanf (fgets s.line CAP s.stdin).1 s.command).2 CAP)).length ≤ 4095
      rw [hstr]; exact hlen
    · show (cstr (strncpy s.p (sscanf (fgets s.line CAP s.stdin).1 s.command).2 CAP)).length <
        (strncpy s.p (sscanf (fgets s.line CAP s.stdin).1 s.command).2 CAP).length
      rw [hstr, hl]; omega
  · intro hpc
    have h1 : strlen (snprintf s.count CAP s.n) < 4096 := by
      have := snprintf_strlen_lt s.count s.n; omega
    have ht : stepResp s = some
        { s with count := snprintf s.count CAP s.n,
                 p := strncpy s.p (snprintf s.count CAP s.n) 4096, spc := .add1 } := by
      simp [stepResp, hpc]
    have hl : (strncpy s.p (snprintf s.count CAP s.n) 4096).length = CAP := by
      rw [strncpy_length]; exact hp
    refine ⟨_, ht, rfl, hl, ?_⟩
    show (cstr (strncpy s.p (snprintf s.count CAP s.n) 4096)).length <
      (strncpy s.p (snprintf s.count CAP s.n) 4096).length
    rw [strncpy_cstr _ _ 4096 (by omega) h1, hl]
    simp only [strlen] at h1
    omega

theorem payload_bound_witness :
    (atInput [65, 112, 112, 108, 101, 10]).p.length = CAP ∧
      (atInput [65, 112, 112, 108, 101, 10]).rpc = .input ∧
      ∃ t, stepReq (atInput [65, 112, 112, 108, 101, 10]) = some t ∧ Terminated t.p ∧
        cstr t.p = [65, 112, 112, 108, 101] := by
  obtain ⟨t, h1, -, -, -, h2, h3⟩ :=
    (payload_bound (atInput [65, 112, 112, 108, 101, 10]) zeros_length).1 rfl (by decide)
      (by decide)
  refine ⟨zeros_length, rfl, t, h1, h2, ?_⟩
  rw [h3]; decide

/-! ### Set-up of the semaphore -/

theorem setupStates_closed_all :
    (setupStates.all fun s => ([Actor.req, Actor.resp]).all fun a =>
      (setupStep a s).all fun t => decide (t ∈ setupStates)) = true := by
  decide

theorem setupStates_closed {s : Setup} (hs : s ∈ setupStates) (a : Actor) {t : Setup}
    (h : setupStep a s = some t) : t ∈ setupStates := by
  have h1 := List.all_eq_true.mp setupStates_closed_all s hs
  have h2 := List.all_eq_true.mp h1 a (by cases a <;> simp)
  rw [h] at h2
  simpa using h2

theorem setupStates_good :
    ∀ s ∈ setupStates, s.rq = .ready → s.rs = .ready →
      setupGood s = true ∧ s.ksem = some 1 := by
  decide

theorem setupRun_mem (sched : List Actor) :
    ∀ s ∈ setupStates, ∀ t, setupRun sched s = some t → t ∈ setupStates := by
  induction sched with
  | nil => intro s hs t h; simp [setupRun] at h; subst h; exact hs
  | cons a as ih =>
    intro s hs t h
    simp only [setupRun] at h
    cases hstep : setupStep a s with
    | none => simp [hstep] at h
    | some u =>
      simp [hstep] at h
      exact ih u (setupStates_closed hs a hstep) t h

theorem setup0_mem : setup0 ∈ setupStates := by decide

/-- C9: whatever the order in which the two endpoints run their set-up against a
semaphore that does not exist, once both are through exactly one SETVAL has been
made, by the endpoint whose exclusive semget succeeded and with value 1, and the
other endpoint, whose exclusive semget failed, attached and set nothing. -/
theorem creator_only_setval (sched : List Actor) (s : Setup)
    (hrun : setupRun sched setup0 = some s) (hq : s.rq = .ready) (hs : s.rs = .ready) :
    s.ksem = some 1 ∧
      ((s.setvals = [(Actor.req, 1)] ∧ s.attaches = [Actor.resp] ∧ s.rcreated = true ∧
          s.screated = false) ∨
       (s.setvals = [(Actor.resp, 1)] ∧ s.attaches = [Actor.req] ∧ s.screated = true ∧
          s.rcreated = false)) := by
  obtain ⟨hg, hk⟩ := setupStates_good s (setupRun_mem sched setup0 setup0_mem s hrun) hq hs
  refine ⟨hk, ?_⟩
  simp only [setupGood, Bool.or_eq_true, Bool.and_eq_true, decide_eq_true_eq,
    Bool.not_eq_true'] at hg
  rcases hg with ⟨⟨⟨h1, h2⟩, h3⟩, h4⟩ | ⟨⟨⟨h1, h2⟩, h3⟩, h4⟩
  · exact Or.inl ⟨h1, h2, h3, h4⟩
  · exact Or.inr ⟨h1, h2, h3, h4⟩

theorem creator_only_setval_witness :
    (∃ s, setupRun [.req, .req, .resp, .resp] setup0 = some s ∧ s.rq = .ready ∧
        s.rs = .ready ∧ s.ksem = some 1 ∧ s.setvals = [(Actor.req, 1)]) ∧
      (∃ s, setupRun [.resp, .resp, .req, .req] setup0 = some s ∧ s.rq = .ready ∧
        s.rs = .ready ∧ s.ksem = some 1 ∧ s.setvals = [(Actor.resp, 1)]) := by
  constructor
  · refine ⟨_, rfl, rfl, rfl, ?_⟩
    have h := creator_only_setval [.req, .req, .resp, .resp] _ rfl rfl rfl
    exact ⟨h.1, rfl⟩
  · refine ⟨_, rfl, rfl, rfl, ?_⟩
    have h := creator_only_setval [.resp, .resp, .req, .req] _ rfl rfl rfl
    exact ⟨h.1, rfl⟩

/-! ### The handshake under arbitrary schedules -/

/-- C1 (fails on the code): the same request "Apple" is answered by "5" when
the responder's wait is served first, and by "Apple" itself when the requester's
second wait is served first, which the semaphore value 2 allows. -/
theorem response_depends_on_schedule :
    (run [.req, .req, .req, .resp, .resp, .resp, .resp, .resp, .req, .req] demo).map
        (fun s => s.shown) = some [([65, 112, 112, 108, 101], [53])] ∧
    (run [.req, .req, .req, .req, .req] demo).map
        (fun s => s.shown) = some [([65, 112, 112, 108, 101], [65, 112, 112, 108, 101])] := by
  constructor <;> decide

/-- C4 (fails on the code): after the requester's first wait, write and semop(+2)
the semaphore is 2, the requester stands at its second wait (sem_op -1) and the
responder at its wait (sem_op -2), and both waits are enabled. -/
theorem both_waits_enabled :
    (run [.req, .req, .req] demo).map
        (fun s => (s.sem, s.rpc, s.spc, reqWaitEnabled s, respWaitEnabled s)) =
      some (some 2, .wait2, .wait, true, true) := by
  decide

/-- C5 (fails on the code): a schedule after which the requester is between its
first wait and its semop(+2) while the responder is between its wait and its
semop(+1). -/
theorem both_in_section :
    (run [.req, .req, .req, .req, .req, .req, .req, .req, .req, .resp,
          .req, .req, .req, .req] demo).map
        (fun s => (s.sem, s.rpc, s.spc, reqInSection s, respInSection s)) =
      some (some 0, .input, .check, true, true) := by
  decide

theorem stepReq_p_length {s t : State} (h : stepReq s = some t) :
    t.p.length = s.p.length := by
  unfold stepReq at h
  split at h
  · cases hw : semWait 1 s.sem with
    | none => simp [hw] at h
    | some v => simp [hw] at h; subst h; rfl
  · dsimp only at h
    split at h
    · simp at h; subst h; rfl
    · simp at h; subst h; simp [strncpy_length]
  · simp at h; subst h; rfl
  · cases hw : semWait 1 s.sem with
    | none => simp [hw] at h
    | some v => simp [hw] at h; subst h; rfl
  · simp at h; subst h; rfl
  · simp at h; subst h; rfl
  · simp at h; subst h; rfl
  · simp at h; subst h; rfl
  · simp at h; subst h; rfl
  · simp at h

theorem stepResp_p_length {s t : State} (h : stepResp s = some t) :
    t.p.length = s.p.length := by
  unfold stepResp at h
  split at h
  · cases hw : semWait 2 s.sem with
    | none => simp [hw] at h
    | some v => simp [hw] at h; subst h; rfl
  · simp at h; subst h; rfl
  · simp at h; subst h; rfl
  · simp at h; subst h; simp [strncpy_length]
  · simp at h; subst h; rfl
  · simp at h; subst h; rfl
  · simp at h; subst h; rfl
  · simp at h; subst h; rfl
  · simp at h

theorem step_p_length {a : Actor} {s t : State} (h : step a s = some t) :
    t.p.length = s.p.length := by
  cases a
  · exact stepReq_p_length h
  · exact stepResp_p_length h

/-- No step changes the size of the region. -/
theorem run_p_length (sched : List Actor) :
    ∀ s t, run sched s = some t → t.p.length = s.p.length := by
  induction sched with
  | nil => intro s t h; simp [run] at h; subst h; rfl
  | cons a as ih =>
    intro s t h
    simp only [run] at h
    cases hs : step a s with
    | none => simp [hs] at h
    | some u =>
      simp [hs] at h
      rw [ih u t h, step_p_length hs]

theorem trapped_step {a : Actor} {s t : State} (hT : Trapped s) (h : step a s = some t) :
    Trapped t := by
  obtain ⟨hr, hsem, hlen, hstr, hpc⟩ := hT
  have hcap : CAP = 4096 := rfl
  cases a with
  | req => simp [step, stepReq, hr] at h
  | resp =>
    simp only [step] at h
    rcases hpc with hpc | hpc | hpc | ⟨hpc, hn⟩ | hpc
    · simp [stepResp, hpc, hsem, semWait] at h
      subst h
      exact ⟨hr, rfl, hlen, hstr, Or.inr (Or.inl rfl)⟩
    · have hne : strcmp s.p exitLit ≠ 0 := by
        rw [Ne, strcmp_eq_zero_iff, hstr]; decide
      simp [stepResp, hpc, hne] at h
      subst h
      exact ⟨hr, hsem, hlen, hstr, Or.inr (Or.inr (Or.inl rfl))⟩
    · simp [stepResp, hpc] at h
      subst h
      refine ⟨hr, hsem, hlen, hstr, Or.inr (Or.inr (Or.inr (Or.inl ⟨rfl, ?_⟩)))⟩
      simp [strlen, hstr]
    · simp [stepResp, hpc, hn] at h
      subst h
      have h1 : strlen (snprintf s.count CAP 1) < 4096 := by
        have := snprintf_strlen_lt s.count 1; omega
      refine ⟨hr, hsem, ?_, ?_, Or.inr (Or.inr (Or.inr (Or.inr rfl)))⟩
      · simp only [strncpy_length]; exact hlen
      · show cstr (strncpy s.p (snprintf s.count CAP 1) 4096) = [49]
        rw [strncpy_cstr _ _ 4096 (by omega) h1, snprintf_cstr _ _ (by decide)]
        decide
    · simp [stepResp, hpc, hsem, semAdd] at h
      subst h
      exact ⟨hr, rfl, hlen, hstr, Or.inl rfl⟩

theorem trapped_run (sched : List Actor) :
    ∀ s t, Trapped s → run sched s = some t → Trapped t := by
  induction sched with
  | nil => intro s t hT h; simp [run] at h; subst h; exact hT
  | cons a as ih =>
    intro s t hT h
    simp only [run] at h
    cases hs : step a s with
    | none => simp [hs] at h
    | some u =>
      simp [hs] at h
      exact ih u t (trapped_step hT hs) h

/-- C8 (fails on the code): in the session "Apple", "Ball", "exit" there is a
schedule after which the requester has sent "exit" and returned, while the
responder, which overwrote "exit" with the reply to "Ball", has never seen the
sentinel and can never leave its loop, whatever happens next. -/
theorem responder_can_miss_sentinel :
    ∃ s, run lateSchedule demo = some s ∧ s.rpc = .done ∧
      cstr s.command = [101, 120, 105, 116] ∧ s.seen = [[66, 97, 108, 108], [52]] ∧
      ∀ sched t, run sched s = some t → t.spc ≠ .done := by
  have hsome : (run lateSchedule demo).map (fun s => (s.rpc, s.sem, cstr s.p, s.spc)) =
      some (.done, none, [49], .add1) := by
    decide
  have hsome2 : (run lateSchedule demo).map (fun s => (cstr s.command, s.seen)) =
      some ([101, 120, 105, 116], [[66, 97, 108, 108], [52]]) := by
    decide
  cases hrun : run lateSchedule demo with
  | none => rw [hrun] at hsome; simp at hsome
  | some s =>
    rw [hrun] at hsome hsome2
    simp only [Option.map_some', Option.some.injEq, Prod.mk.injEq] at hsome hsome2
    obtain ⟨h1, h2, h3, h4⟩ := hsome
    obtain ⟨h5, h6⟩ := hsome2
    have hlen : s.p.length = CAP := by
      rw [run_p_length lateSchedule demo s hrun]; exact zeros_length
    have hT : Trapped s := ⟨h1, h2, hlen, h3, Or.inr (Or.inr (Or.inr (Or.inr h4)))⟩
    refine ⟨s, rfl, h1, h5, h6, ?_⟩
    intro sched t ht hdone
    obtain ⟨-, -, -, -, hpc⟩ := trapped_run sched s t hT ht
    rw [hdone] at hpc
    simp at hpc


/-! ### Mapping lengths, exit paths and ownership of the shared objects -/

/-- C11 (fails on the code): the responder maps 4096 bytes and unmaps with
length 1 (sizeof(char)), and so does mmap_rec; only the requester and mmap_sec
unmap with the length they mapped. -/
theorem munmap_length_mismatch :
    mmapLens (respStart okSys) = [4096] ∧
      (run [.resp, .resp] (atCheck exitBuf)).map (fun s => s.sunmap) = some (some 1) ∧
      mmap_rec_lens.mmapLen = 4096 ∧ mmap_rec_lens.munmapLen = 1 ∧
      mmapLens (reqStart okSys) = [4096] ∧
      (run [.req, .req, .req, .req] exitDemo).map (fun s => s.runmap) = some (some 4096) ∧
      mmap_sec_lens.mmapLen = mmap_sec_lens.munmapLen := by
  refine ⟨by decide, by decide, rfl, rfl, by decide, by decide, rfl⟩

/-- C12 (as stated, fails on the code): after sending "exit" the requester is at
the munmap behind its loop with the semaphore at 2, and two steps later its
semctl(semid, 0, IPC_RMID) has removed the semaphore. -/
theorem requester_removes_semaphore :
    (run [.req, .req, .req] exitDemo).map (fun s => (s.rpc, s.sem)) =
        some (RPc.unmap, some 2) ∧
      (run [.req, .req, .req, .req, .req] exitDemo).map (fun s => (s.rpc, s.sem)) =
        some (RPc.close, none) := by
  constructor <;> decide

/-- C12 (amended): both breaks of the requester's loop (sscanf returning EOF,
and "exit" sent) lead to the munmap behind the loop, the statements behind the
loop can only be entered there, and from there the requester unmaps the region
with length 4096, removes the semaphore with IPC_RMID, closes its descriptor and
returns; none of these steps touches the region or its name. -/
theorem requester_exit_path (s : State) (hpc : s.rpc = .unmap) :
    (∃ t1 t2 t3, stepReq s = some t1 ∧ stepReq t1 = some t2 ∧ stepReq t2 = some t3 ∧
      stepReq t3 = none ∧
      t1.rpc = .rmid ∧ t1.runmap = some 4096 ∧ t1.sem = s.sem ∧
      t2.rpc = .close ∧ t2.sem = none ∧
      t3.rpc = .done ∧ t3.rclosed = true ∧
      ∀ t ∈ [t1, t2, t3], t.linked = s.linked ∧ t.p = s.p) ∧
    (∀ u v, stepReq u = some v →
      (v.rpc = .rmid → u.rpc = .unmap) ∧ (v.rpc = .close → u.rpc = .rmid) ∧
      (v.rpc = .done → u.rpc = .close)) ∧
    (∀ u, (u.rpc = .input → (sscanf (fgets u.line CAP u.stdin).1 u.command).1 < 0 →
        ∃ v, stepReq u = some v ∧ v.rpc = .unmap ∧ v.p = u.p ∧ v.sem = u.sem) ∧
      (u.rpc = .add2 → u.ret3 = 0 →
        ∃ v, stepReq u = some v ∧ v.rpc = .unmap ∧ v.p = u.p)) := by
  refine ⟨?_, ?_, ?_⟩
  · have h1 : stepReq s = some { s with runmap := some CAP, rpc := .rmid } := by
      simp [stepReq, hpc]
    refine ⟨_, { s with runmap := some CAP, sem := none, rpc := .close },
      { s with runmap := some CAP, sem := none, rclosed := true, rpc := .done },
      h1, rfl, rfl, rfl, rfl, rfl, rfl, rfl, rfl, rfl, rfl, ?_⟩
    intro t ht
    simp only [List.mem_cons, List.mem_singleton, List.not_mem_nil, or_false] at ht
    rcases ht with h | h | h <;> subst h <;> exact ⟨rfl, rfl⟩
  · intro u v h
    unfold stepReq at h
    split at h
    · cases hw : semWait 1 u.sem with
      | none => simp [hw] at h
      | some w => simp [hw] at h; subst h; simp
    · dsimp only at h
      split at h
      · simp at h; subst h; simp
      · simp at h; subst h; simp
    · simp at h; subst h; by_cases hr : u.ret3 = 0 <;> simp [hr]
    · cases hw : semWait 1 u.sem with
      | none => simp [hw] at h
      | some w => simp [hw] at h; subst h; simp
    · simp at h; subst h; simp
    · simp at h; subst h; simp
    · simp at h; subst h; simp [*]
    · simp at h; subst h; simp [*]
    · simp at h; subst h; simp [*]
    · simp at h
  · intro u
    constructor
    · intro hu hlt
      have hv : stepReq u = some
          { u with stdin := (fgets u.line CAP u.stdin).2, line := (fgets u.line CAP u.stdin).1,
                   command := (sscanf (fgets u.line CAP u.stdin).1 u.command).2,
                   rpc := .unmap } := by
        simp [stepReq, hu, hlt]
      exact ⟨_, hv, rfl, rfl, rfl⟩
    · intro hu h0
      have hv : stepReq u = some { u with sem := semAdd 2 u.sem, rpc := .unmap } := by
        simp [stepReq, hu, h0]
      exact ⟨_, hv, rfl, rfl⟩

theorem requester_exit_path_witness :
    ((run [.req, .req, .req] exitDemo).getD exitDemo).rpc = .unmap ∧
      ∃ t1 t2 t3, stepReq ((run [.req, .req, .req] exitDemo).getD exitDemo) = some t1 ∧
        stepReq t1 = some t2 ∧ stepReq t2 = some t3 ∧ t2.sem = none ∧ t3.rpc = .done := by
  have hpc : ((run [.req, .req, .req] exitDemo).getD exitDemo).rpc = .unmap := by decide
  obtain ⟨t1, t2, t3, h1, h2, h3, -, -, -, -, -, h4, h5, -⟩ :=
    (requester_exit_path _ hpc).1
  exact ⟨hpc, t1, t2, t3, h1, h2, h3, h4, h5⟩

theorem stepReq_linked {s t : State} (h : stepReq s = some t) : t.linked = s.linked := by
  unfold stepReq at h
  split at h
  · cases hw : semWait 1 s.sem with
    | none => simp [hw] at h
    | some v => simp [hw] at h; subst h; rfl
  · dsimp only at h
    split at h
    · simp at h; subst h; rfl
    · simp at h; subst h; rfl
  · simp at h; subst h; rfl
  · cases hw : semWait 1 s.sem with
    | none => simp [hw] at h
    | some v => simp [hw] at h; subst h; rfl
  · simp at h; subst h; rfl
  · simp at h; subst h; rfl
  · simp at h; subst h; rfl
  · simp at h; subst h; rfl
  · simp at h; subst h; rfl
  · simp at h

theorem stepResp_linked {s t : State} (h : stepResp s = some t) (hl : s.linked = false) :
    t.linked = false := by
  unfold stepResp at h
  split at h
  · cases hw : semWait 2 s.sem with
    | none => simp [hw] at h
    | some v => simp [hw] at h; subst h; exact hl
  · simp at h; subst h; exact hl
  · simp at h; subst h; exact hl
  · simp at h; subst h; exact hl
  · simp at h; subst h; exact hl
  · simp at h; subst h; exact hl
  · simp at h; subst h; exact hl
  · simp at h; subst h; rfl
  · simp at h

/-- Once the name of the region is gone no step of either program brings it back. -/
theorem run_linked_false (sched : List Actor) :
    ∀ s t, run sched s = some t → s.linked = false → t.linked = false := by
  induction sched with
  | nil => intro s t h hl; simp [run] at h; subst h; exact hl
  | cons a as ih =>
    intro s t h hl
    simp only [run] at h
    cases hs : step a s with
    | none => simp [hs] at h
    | some u =>
      simp [hs] at h
      refine ih u t h ?_
      cases a with
      | req => rw [stepReq_linked hs]; exact hl
      | resp => exact stepResp_linked hs hl

/-- C13 (as stated, fails on the code): in the session in which the user types
"exit" the responder observes the sentinel and returns, the name of the region
is gone, and the semaphore still exists with value 0. -/
theorem responder_keeps_semaphore :
    (run [.req, .req, .req, .resp, .resp, .resp, .resp, .resp] exitDemo).map
        (fun s => (s.spc, s.seen, s.linked, s.sem)) =
      some (SPc.done, [[101, 120, 105, 116]], false, some 0) := by
  decide

/-- C13 (amended): after observing the sentinel the responder unlinks the name
of the region, so that from then on shm_open without O_CREAT fails, and it
leaves the semaphore as it is. -/
theorem responder_unlinks_only (s : State) (hpc : s.spc = .check)
    (hx : cstr s.p = [101, 120, 105, 116]) :
    ∃ t, run [.resp, .resp, .resp, .resp] s = some t ∧ t.spc = .done ∧ t.sem = s.sem ∧
      t.linked = false ∧
      ∀ sched u, run sched t = some u → shm_open false u.linked = none := by
  have hz : strcmp s.p exitLit = 0 := by
    rw [strcmp_eq_zero_iff, hx]; decide
  have hrun : run [.resp, .resp, .resp, .resp] s = some
      { s with seen := s.seen ++ [cstr s.p], ret1 := strcmp s.p exitLit,
               sunmap := some 1, sclosed := true, linked := false, spc := .done } := by
    simp [run, step, stepResp, hpc, hz]
  refine ⟨_, hrun, rfl, rfl, rfl, ?_⟩
  intro sched u hu
  have := run_linked_false sched _ u hu rfl
  simp [shm_open, this]

theorem responder_unlinks_only_witness :
    (atCheck exitBuf).spc = .check ∧ cstr (atCheck exitBuf).p = [101, 120, 105, 116] ∧
      ∃ t, run [.resp, .resp, .resp, .resp] (atCheck exitBuf) = some t ∧
        t.sem = some 0 ∧ shm_open false t.linked = none := by
  have hx : cstr (atCheck exitBuf).p = [101, 120, 105, 116] := by decide
  obtain ⟨t, h1, -, h2, -, h3⟩ := responder_unlinks_only (atCheck exitBuf) rfl hx
  exact ⟨rfl, hx, t, h1, h2, h3 [] t rfl⟩

/-- C15 (fails on the code): after a cycle in which the requester's second wait
is served before the responder's wait, the requester's next semop(+2) brings the
semaphore to 3. -/
theorem semaphore_exceeds_two :
    (run [.req, .req, .req, .req, .req, .req, .req, .req, .req] demo).map
        (fun s => (s.rpc, s.spc, s.sem)) = some (RPc.wait2, SPc.wait, some 3) := by
  decide

/-! ### Start-up -/

/-- C16 (as stated, fails on the code): when both semget calls fail, and when
ftruncate fails, the endpoint does not terminate but goes on to the first semop
of its loop. -/
theorem startup_goes_on_without_semaphore :
    waits (reqStart noSemSys) = true ∧ Call.exit 1 ∉ reqStart noSemSys ∧
      waits (respStart noSemSys) = true ∧ Call.exit 1 ∉ respStart noSemSys ∧
      waits (reqStart noTruncSys) = true ∧ Call.exit 1 ∉ reqStart noTruncSys := by
  decide

/-- C16 (amended): an endpoint whose shm_open or mmap reports an error prints a
diagnostic and terminates with status 1 without reaching a semaphore wait; the
results of semget and ftruncate do not stop it: when shm_open and mmap succeed
it reaches the first semop of its loop. -/
theorem startup_failures (e : Sys) :
    ((e.shmFd = -1 ∨ e.mmapFailed = true) →
      [Call.diag, Call.exit 1] <:+ reqStart e ∧ waits (reqStart e) = false ∧
      [Call.diag, Call.exit 1] <:+ respStart e ∧ waits (respStart e) = false) ∧
    (e.shmFd ≠ -1 → e.mmapFailed = false →
      waits (reqStart e) = true ∧ Call.exit 1 ∉ reqStart e ∧
      waits (respStart e) = true ∧ Call.exit 1 ∉ respStart e) := by
  constructor
  · intro h
    by_cases h1 : e.shmFd = -1
    · refine ⟨?_, ?_, ?_, ?_⟩
      · unfold reqStart; rw [if_pos h1]; exact List.suffix_append _ _
      · by_cases hs : e.semgetExcl < 0 <;> simp [reqStart, semStart, waits, h1, hs]
      · unfold respStart; rw [if_pos h1]; exact List.suffix_append _ _
      · by_cases hs : e.semgetExcl < 0 <;> simp [respStart, semStart, waits, h1, hs]
    · have h2 : e.mmapFailed = true := by
        rcases h with h | h
        · exact absurd h h1
        · exact h
      refine ⟨?_, ?_, ?_, ?_⟩
      · unfold reqStart; rw [if_neg h1, if_pos h2]
        exact (List.suffix_append _ _).trans (List.suffix_append _ _)
      · by_cases hs : e.semgetExcl < 0 <;> simp [reqStart, semStart, waits, h1, h2, hs]
      · unfold respStart; rw [if_neg h1, if_pos h2]
        exact (List.suffix_append _ _).trans (List.suffix_append _ _)
      · by_cases hs : e.semgetExcl < 0 <;> simp [respStart, semStart, waits, h1, h2, hs]
  · intro h1 h2
    by_cases hs : e.semgetExcl < 0 <;>
      simp [reqStart, respStart, semStart, waits, h1, h2, hs]

theorem startup_failures_witness :
    noShmSys.shmFd = -1 ∧ [Call.diag, Call.exit 1] <:+ reqStart noShmSys ∧
      waits (reqStart noShmSys) = false ∧ okSys.shmFd ≠ -1 ∧ okSys.mmapFailed = false ∧
      waits (reqStart okSys) = true := by
  have h := (startup_failures noShmSys).1 (Or.inl rfl)
  have k := (startup_failures okSys).2 (by decide) rfl
  exact ⟨rfl, h.1, h.2.1, by decide, rfl, k.1⟩

/-- C17: both endpoints pass the same path and id to ftok, open the same
shared-memory name, and, when they get as far as mmap, map the same length,
which is 4096 (sizeof(line) in the requester, the literal 4096 in the
responder). -/
theorem endpoints_agree_on_identity (e : Sys) :
    ftokArgs (reqStart e) = [("mmap2_r_sem", 97)] ∧
      ftokArgs (respStart e) = [("mmap2_r_sem", 97)] ∧
      shmNames (reqStart e) = ["/shared_memory"] ∧
      shmNames (respStart e) = ["/shared_memory"] ∧
      (e.shmFd ≠ -1 →
        mmapLens (reqStart e) = [4096] ∧ mmapLens (respStart e) = [4096]) := by
  have hcap : CAP = 4096 := rfl
  refine ⟨?_, ?_, ?_, ?_, ?_⟩
  · by_cases h1 : e.shmFd = -1 <;> by_cases h2 : e.mmapFailed = true <;>
      by_cases hs : e.semgetExcl < 0 <;>
      simp [reqStart, semStart, ftokArgs, h1, h2, hs]
  · by_cases h1 : e.shmFd = -1 <;> by_cases h2 : e.mmapFailed = true <;>
      by_cases hs : e.semgetExcl < 0 <;>
      simp [respStart, semStart, ftokArgs, h1, h2, hs]
  · by_cases h1 : e.shmFd = -1 <;> by_cases h2 : e.mmapFailed = true <;>
      by_cases hs : e.semgetExcl < 0 <;>
      simp [reqStart, semStart, shmNames, h1, h2, hs]
  · by_cases h1 : e.shmFd = -1 <;> by_cases h2 : e.mmapFailed = true <;>
      by_cases hs : e.semgetExcl < 0 <;>
      simp [respStart, semStart, shmNames, h1, h2, hs]
  · intro h1
    constructor
    · by_cases h2 : e.mmapFailed = true <;> by_cases hs : e.semgetExcl < 0 <;>
        simp [reqStart, semStart, mmapLens, h1, h2, hs, hcap]
    · by_cases h2 : e.mmapFailed = true <;> by_cases hs : e.semgetExcl < 0 <;>
        simp [respStart, semStart, mmapLens, h1, h2, hs]

theorem endpoints_agree_on_identity_witness :
    okSys.shmFd ≠ -1 ∧ ftokArgs (reqStart okSys) = ftokArgs (respStart okSys) ∧
      shmNames (reqStart okSys) = shmNames (respStart okSys) ∧
      mmapLens (reqStart okSys) = mmapLens (respStart okSys) := by
  obtain ⟨h1, h2, h3, h4, h5⟩ := endpoints_agree_on_identity okSys
  have h6 := h5 (by decide)
  exact ⟨by decide, h1.trans h2.symm, h3.trans h4.symm, h6.1.trans h6.2.symm⟩


/-! ### One destroy per object -/

theorem stepReq_counts {s t : State} (h : stepReq s = some t) :
    (if isRmid (Actor.req, s) then 1 else 0) + rmidDone s = rmidDone t ∧
      unlinkDone t = unlinkDone s ∧
      ((s.rpc = .close ∨ s.rpc = .done → s.sem = none) →
        (t.rpc = .close ∨ t.rpc = .done → t.sem = none)) := by
  unfold stepReq at h
  split at h
  · cases hw : semWait 1 s.sem with
    | none => simp [hw] at h
    | some v => simp [hw] at h; subst h; simp [isRmid, rmidDone, unlinkDone, *]
  · dsimp only at h
    split at h
    · simp at h; subst h; simp [isRmid, rmidDone, unlinkDone, *]
    · simp at h; subst h; simp [isRmid, rmidDone, unlinkDone, *]
  · simp at h; subst h
    by_cases hr : s.ret3 = 0 <;> simp [isRmid, rmidDone, unlinkDone, hr, *]
  · cases hw : semWait 1 s.sem with
    | none => simp [hw] at h
    | some v => simp [hw] at h; subst h; simp [isRmid, rmidDone, unlinkDone, *]
  · simp at h; subst h; simp [isRmid, rmidDone, unlinkDone, *]
  · simp at h; subst h; simp [isRmid, rmidDone, unlinkDone, *]
  · simp at h; subst h; simp [isRmid, rmidDone, unlinkDone, *]
  · simp at h; subst h; simp [isRmid, rmidDone, unlinkDone, *]
  · simp at h; subst h; simp [isRmid, rmidDone, unlinkDone, *]
  · simp at h

theorem stepResp_counts {s t : State} (h : stepResp s = some t) :
    (if isUnlink (Actor.resp, s) then 1 else 0) + unlinkDone s = unlinkDone t ∧
      rmidDone t = rmidDone s ∧
      ((s.rpc = .close ∨ s.rpc = .done → s.sem = none) →
        (t.rpc = .close ∨ t.rpc = .done → t.sem = none)) ∧
      ((s.spc = .done → s.linked = false) → (t.spc = .done → t.linked = false)) := by
  unfold stepResp at h
  split at h
  · cases hs : s.sem with
    | none =>
      simp [hs, semWait] at h; subst h
      simp [isUnlink, rmidDone, unlinkDone, *]
    | some v =>
      by_cases hv : 2 ≤ v
      · simp [hs, semWait, hv] at h; subst h
        simp [isUnlink, rmidDone, unlinkDone, *]
      · simp [hs, semWait, hv] at h
  · simp at h; subst h
    by_cases hr : strcmp s.p exitLit = 0 <;> simp [isUnlink, rmidDone, unlinkDone, hr, *]
  · simp at h; subst h; simp [isUnlink, rmidDone, unlinkDone, *]
  · simp at h; subst h; simp [isUnlink, rmidDone, unlinkDone, *]
  · simp at h; subst h
    cases hs : s.sem <;> simp [isUnlink, rmidDone, unlinkDone, semAdd, hs, *]
  · simp at h; subst h; simp [isUnlink, rmidDone, unlinkDone, *]
  · simp at h; subst h; simp [isUnlink, rmidDone, unlinkDone, *]
  · simp at h; subst h; simp [isUnlink, rmidDone, unlinkDone, *]
  · simp at h


/-- Along any schedule the destroy calls counted in the trace are the ones the
program points account for, and what has been destroyed stays destroyed. -/
theorem steps_counts (sched : List Actor) :
    ∀ s t, run sched s = some t →
      (s.rpc = .close ∨ s.rpc = .done → s.sem = none) →
      (s.spc = .done → s.linked = false) →
      (steps sched s).countP isRmid + rmidDone s = rmidDone t ∧
        (steps sched s).countP isUnlink + unlinkDone s = unlinkDone t ∧
        (t.rpc = .close ∨ t.rpc = .done → t.sem = none) ∧
        (t.spc = .done → t.linked = false) := by
  induction sched with
  | nil =>
    intro s t h h1 h2
    simp [run] at h; subst h
    exact ⟨by simp [steps], by simp [steps], h1, h2⟩
  | cons a as ih =>
    intro s t h h1 h2
    simp only [run] at h
    cases hs : step a s with
    | none => simp [hs] at h
    | some u =>
      simp [hs] at h
      cases a with
      | req =>
        have hs2 : stepReq s = some u := hs
        obtain ⟨c1, c2, c3⟩ := stepReq_counts hs2
        have hl : u.spc = .done → u.linked = false := by
          intro hd
          have hsu : unlinkDone u = unlinkDone s := c2
          have : s.spc = .done := by
            by_contra hn
            simp [unlinkDone, hd, hn] at hsu
          rw [stepReq_linked hs2]; exact h2 this
        obtain ⟨i1, i2, i3, i4⟩ := ih u t h (c3 h1) hl
        refine ⟨?_, ?_, i3, i4⟩
        · simp only [steps, hs, List.countP_cons]
          rw [← i1, ← c1]; omega
        · simp only [steps, hs, List.countP_cons]
          have : isUnlink (Actor.req, s) = false := by simp [isUnlink]
          rw [← i2, c2, this]; simp
      | resp =>
        have hs2 : stepResp s = some u := hs
        obtain ⟨c1, c2, c3, c4⟩ := stepResp_counts hs2
        obtain ⟨i1, i2, i3, i4⟩ := ih u t h (c3 h1) (c4 h2)
        refine ⟨?_, ?_, i3, i4⟩
        · simp only [steps, hs, List.countP_cons]
          have : isRmid (Actor.resp, s) = false := by simp [isRmid]
          rw [← i1, c2, this]; simp
        · simp only [steps, hs, List.countP_cons]
          rw [← i2, ← c1]; omega

/-- In every execution of the two programs that ends with both endpoints
returned, exactly one step removed the semaphore (the requester's IPC_RMID) and
exactly one step removed the name of the region (the responder's shm_unlink); at
the end neither object exists, and no other step of either endpoint destroys an
object.  Whether the responder returns at all is a separate matter. -/
theorem destroy_exactly_once (stdin : List Nat) (p line command count : Buf)
    (sched : List Actor) (t : State)
    (hrun : run sched (init stdin p line command count) = some t)
    (hr : t.rpc = .done) (hs : t.spc = .done) :
    (steps sched (init stdin p line command count)).countP isRmid = 1 ∧
      (steps sched (init stdin p line command count)).countP isUnlink = 1 ∧
      t.sem = none ∧ t.linked = false ∧
      (∀ a u v, step a u = some v →
        (u.sem ≠ none → v.sem = none → isRmid (a, u) = true) ∧
        (u.linked = true → v.linked = false → isUnlink (a, u) = true)) := by
  obtain ⟨i1, i2, i3, i4⟩ := steps_counts sched (init stdin p line command count) t hrun
    (by simp [init]) (by simp [init])
  refine ⟨?_, ?_, i3 (Or.inr hr), i4 hs, ?_⟩
  · simpa [rmidDone, init, hr] using i1
  · simpa [unlinkDone, init, hs] using i2
  · intro a u v h
    cases a with
    | req =>
      have h2 : stepReq u = some v := h
      constructor
      · intro hu hv
        unfold stepReq at h2
        split at h2
        · cases hs : u.sem with
          | none => exact absurd hs hu
          | some w =>
            by_cases hw : 1 ≤ w
            · simp [hs, semWait, hw] at h2; subst h2; simp at hv
            · simp [hs, semWait, hw] at h2
        · dsimp only at h2
          split at h2
          · simp at h2; subst h2; exact absurd hv hu
          · simp at h2; subst h2; exact absurd hv hu
        · simp at h2; subst h2
          cases hs : u.sem with
          | none => exact absurd hs hu
          | some w => simp [semAdd, hs] at hv
        · cases hs : u.sem with
          | none => exact absurd hs hu
          | some w =>
            by_cases hw : 1 ≤ w
            · simp [hs, semWait, hw] at h2; subst h2; simp at hv
            · simp [hs, semWait, hw] at h2
        · simp at h2; subst h2; exact absurd hv hu
        · simp at h2; subst h2
          cases hs : u.sem with
          | none => exact absurd hs hu
          | some w => simp [semAdd, hs] at hv
        · simp at h2; subst h2; exact absurd hv hu
        · simp [isRmid, *]
        · simp at h2; subst h2; exact absurd hv hu
        · simp at h2
      · intro hu hv
        rw [stepReq_linked h2, hu] at hv
        exact absurd hv (by simp)
    | resp =>
      have h2 : stepResp u = some v := h
      constructor
      · intro hu hv
        unfold stepResp at h2
        split at h2
        · cases hs : u.sem with
          | none => exact absurd hs hu
          | some w =>
            by_cases hw : 2 ≤ w
            · simp [hs, semWait, hw] at h2; subst h2; simp at hv
            · simp [hs, semWait, hw] at h2
        · simp at h2; subst h2; exact absurd hv hu
        · simp at h2; subst h2; exact absurd hv hu
        · simp at h2; subst h2; exact absurd hv hu
        · simp at h2; subst h2
          cases hs : u.sem with
          | none => exact absurd hs hu
          | some w => simp [semAdd, hs] at hv
        · simp at h2; subst h2; exact absurd hv hu
        · simp at h2; subst h2; exact absurd hv hu
        · simp at h2; subst h2; exact absurd hv hu
        · simp at h2
      · intro hu hv
        unfold stepResp at h2
        split at h2
        · cases hw : semWait 2 u.sem with
          | none => simp [hw] at h2
          | some w => simp [hw] at h2; subst h2; simp [hu] at hv
        · simp at h2; subst h2; simp [hu] at hv
        · simp at h2; subst h2; simp [hu] at hv
        · simp at h2; subst h2; simp [hu] at hv
        · simp at h2; subst h2; simp [hu] at hv
        · simp at h2; subst h2; simp [hu] at hv
        · simp at h2; subst h2; simp [hu] at hv
        · simp [isUnlink, *]
        · simp at h2

theorem destroy_exactly_once_witness :
    (∃ t, run [.req, .req, .req, .resp, .resp, .resp, .resp, .resp, .req, .req, .req]
        (init [101, 120, 105, 116, 10] zeros zeros zeros zeros) = some t ∧
        t.rpc = .done ∧ t.spc = .done) ∧
      (steps [.req, .req, .req, .resp, .resp, .resp, .resp, .resp, .req, .req, .req]
        (init [101, 120, 105, 116, 10] zeros zeros zeros zeros)).countP isRmid = 1 ∧
      (steps [.req, .req, .req, .resp, .resp, .resp, .resp, .resp, .req, .req, .req]
        (init [101, 120, 105, 116, 10] zeros zeros zeros zeros)).countP isUnlink = 1 := by
  have hd : (run [.req, .req, .req, .resp, .resp, .resp, .resp, .resp, .req, .req, .req]
      (init [101, 120, 105, 116, 10] zeros zeros zeros zeros)).map
      (fun s => (s.rpc, s.spc)) = some (RPc.done, SPc.done) := by decide
  cases hrun : run [.req, .req, .req, .resp, .resp, .resp, .resp, .resp, .req, .req, .req]
      (init [101, 120, 105, 116, 10] zeros zeros zeros zeros) with
  | none => rw [hrun] at hd; simp at hd
  | some t =>
    rw [hrun] at hd
    simp only [Option.map_some', Option.some.injEq, Prod.mk.injEq] at hd
    have h := destroy_exactly_once [101, 120, 105, 116, 10] zeros zeros zeros zeros _ t hrun
      hd.1 hd.2
    exact ⟨⟨t, rfl, hd.1, hd.2⟩, h.1, h.2.1⟩

theorem trapped_keeps_name {a : Actor} {s t : State} (hT : Trapped s)
    (h : step a s = some t) : t.linked = s.linked ∧ isUnlink (a, s) = false := by
  obtain ⟨hr, hsem, hlen, hstr, hpc⟩ := hT
  cases a with
  | req => simp [step, stepReq, hr] at h
  | resp =>
    simp only [step] at h
    rcases hpc with hpc | hpc | hpc | ⟨hpc, hn⟩ | hpc
    · simp [stepResp, hpc, hsem, semWait] at h
      subst h
      exact ⟨rfl, by simp [isUnlink, hpc]⟩
    · have hne : strcmp s.p exitLit ≠ 0 := by
        rw [Ne, strcmp_eq_zero_iff, hstr]; decide
      simp [stepResp, hpc, hne] at h
      subst h
      exact ⟨rfl, by simp [isUnlink, hpc]⟩
    · simp [stepResp, hpc] at h
      subst h
      exact ⟨rfl, by simp [isUnlink, hpc]⟩
    · simp [stepResp, hpc, hn] at h
      subst h
      exact ⟨rfl, by simp [isUnlink, hpc]⟩
    · simp [stepResp, hpc, hsem, semAdd] at h
      subst h
      exact ⟨rfl, by simp [isUnlink, hpc]⟩

theorem trapped_run_keeps_name (sched : List Actor) :
    ∀ s t, Trapped s → run sched s = some t →
      t.linked = s.linked ∧ (steps sched s).countP isUnlink = 0 := by
  induction sched with
  | nil =>
    intro s t _ h
    simp [run] at h; subst h
    exact ⟨rfl, by simp [steps]⟩
  | cons a as ih =>
    intro s t hT h
    simp only [run] at h
    cases hs : step a s with
    | none => simp [hs] at h
    | some u =>
      simp [hs] at h
      obtain ⟨k1, k2⟩ := trapped_keeps_name hT hs
      obtain ⟨i1, i2⟩ := ih u t (trapped_step hT hs) h
      refine ⟨by rw [i1, k1], ?_⟩
      simp only [steps, hs, List.countP_cons, i2, k2]
      simp

/-- C14 (fails on the code): in the session "Apple", "Ball", "exit" there is a
schedule after which the requester has sent the sentinel, removed the semaphore
(the one IPC_RMID of the trace) and returned, while no step has called
shm_unlink; from there on, whatever the schedule, the responder never returns,
no step calls shm_unlink, and the name of the region stays: a later shm_open
without O_CREAT still finds it. -/
theorem sentinel_leaves_name :
    ∃ s, run lateSchedule demo = some s ∧ s.rpc = .done ∧
      cstr s.command = [101, 120, 105, 116] ∧
      (steps lateSchedule demo).countP isRmid = 1 ∧
      (steps lateSchedule demo).countP isUnlink = 0 ∧
      s.sem = none ∧ s.linked = true ∧
      ∀ sched t, run sched s = some t →
        t.spc ≠ .done ∧ (steps sched s).countP isUnlink = 0 ∧ t.linked = true ∧
          shm_open false t.linked = some true := by
  have hsome : (run lateSchedule demo).map (fun s => (s.rpc, s.sem, cstr s.p, s.spc)) =
      some (.done, none, [49], .add1) := by
    decide
  have hsome2 : (run lateSchedule demo).map (fun s => (cstr s.command, s.linked)) =
      some ([101, 120, 105, 116], true) := by
    decide
  have hc1 : (steps lateSchedule demo).countP isRmid = 1 := by decide
  have hc2 : (steps lateSchedule demo).countP isUnlink = 0 := by decide
  cases hrun : run lateSchedule demo with
  | none => rw [hrun] at hsome; simp at hsome
  | some s =>
    rw [hrun] at hsome hsome2
    simp only [Option.map_some', Option.some.injEq, Prod.mk.injEq] at hsome hsome2
    obtain ⟨h1, h2, h3, h4⟩ := hsome
    obtain ⟨h5, h6⟩ := hsome2
    have hlen : s.p.length = CAP := by
      rw [run_p_length lateSchedule demo s hrun]; exact zeros_length
    have hT : Trapped s := ⟨h1, h2, hlen, h3, Or.inr (Or.inr (Or.inr (Or.inr h4)))⟩
    refine ⟨s, rfl, h1, h5, hc1, hc2, h2, h6, ?_⟩
    intro sched t ht
    obtain ⟨-, -, -, -, hpc⟩ := trapped_run sched s t hT ht
    obtain ⟨k1, k2⟩ := trapped_run_keeps_name sched s t hT ht
    have hl : t.linked = true := by rw [k1, h6]
    refine ⟨?_, k2, hl, by rw [hl]; rfl⟩
    intro hdone
    rw [hdone] at hpc
    simp at hpc


/-! ### The intended alternation -/

/-- C19: from the top of both loops with the semaphore at 1, a non-sentinel
request run in the intended order (requester waits, writes, adds 2; responder
waits, replies, adds 1; requester waits, prints, adds 1) moves the semaphore
through 1, 0, 2, 0, 1, 0, 1 and ends at the top of both loops with the value 1,
where the requester's wait is enabled and the responder's is not; the requester
has printed the decimal length of its request. -/
theorem intended_cycle (s : State) (hr : s.rpc = .wait1) (hs : s.spc = .wait)
    (hsem : s.sem = some 1) (hp : s.p.length = CAP)
    (hret : 0 ≤ (sscanf (fgets s.line CAP s.stdin).1 s.command).1)
    (hne : cstr (sscanf (fgets s.line CAP s.stdin).1 s.command).2 ≠ [101, 120, 105, 116])
    (hlen : strlen (sscanf (fgets s.line CAP s.stdin).1 s.command).2 < CAP) :
    ∃ t, run cycle s = some t ∧
      (s.sem :: semHistory cycle s).destutter (fun a b => a ≠ b) =
        [some 1, some 0, some 2, some 0, some 1, some 0, some 1] ∧
      t.sem = some 1 ∧ t.rpc = .wait1 ∧ t.spc = .wait ∧
      reqWaitEnabled t = true ∧ respWaitEnabled t = false ∧
      t.shown = s.shown ++
        [(cstr (sscanf (fgets s.line CAP s.stdin).1 s.command).2,
          decimal (strlen (sscanf (fgets s.line CAP s.stdin).1 s.command).2))] := by
  have hcap : CAP = 4096 := rfl
  have hnlt : ¬ (sscanf (fgets s.line CAP s.stdin).1 s.command).1 < 0 := by omega
  have hz3 : strcmp (sscanf (fgets s.line CAP s.stdin).1 s.command).2 exitLit ≠ 0 := by
    rw [Ne, strcmp_eq_zero_iff]
    simpa [exitLit, cstr] using hne
  have hreq : cstr (strncpy s.p (sscanf (fgets s.line CAP s.stdin).1 s.command).2 CAP) =
      cstr (sscanf (fgets s.line CAP s.stdin).1 s.command).2 :=
    strncpy_cstr _ _ CAP (by omega) hlen
  have hcmp : strcmp (strncpy s.p (sscanf (fgets s.line CAP s.stdin).1 s.command).2 CAP)
      exitLit ≠ 0 := by
    rw [Ne, strcmp_eq_zero_iff, hreq]
    simpa [exitLit, cstr] using hne
  have hn : strlen (strncpy s.p (sscanf (fgets s.line CAP s.stdin).1 s.command).2 CAP) =
      strlen (sscanf (fgets s.line CAP s.stdin).1 s.command).2 := by
    simp only [strlen, hreq]
  have hd : (decimal (strlen (sscanf (fgets s.line CAP s.stdin).1 s.command).2)).length ≤
      CAP - 1 := by
    have := decimal_length_le_four
      (strlen (sscanf (fgets s.line CAP s.stdin).1 s.command).2) (by omega)
    omega
  have hrep : cstr (strncpy (strncpy s.p (sscanf (fgets s.line CAP s.stdin).1 s.command).2 CAP)
      (snprintf s.count CAP (strlen (sscanf (fgets s.line CAP s.stdin).1 s.command).2)) 4096) =
      decimal (strlen (sscanf (fgets s.line CAP s.stdin).1 s.command).2) := by
    have h1 : strlen (snprintf s.count CAP
        (strlen (sscanf (fgets s.line CAP s.stdin).1 s.command).2)) < 4096 := by
      have := snprintf_strlen_lt s.count
        (strlen (sscanf (fgets s.line CAP s.stdin).1 s.command).2)
      omega
    rw [strncpy_cstr _ _ 4096 (by rw [strncpy_length]; omega) h1]
    exact snprintf_cstr _ _ hd
  simp [cycle, run, step, stepReq, stepResp, semHistory, hr, hs, hsem, semWait, semAdd,
    hnlt, hz3, hcmp, hn, hrep, hreq, reqWaitEnabled, respWaitEnabled, List.destutter,
    List.destutter']

theorem intended_cycle_witness :
    demo.rpc = .wait1 ∧ demo.spc = .wait ∧ demo.sem = some 1 ∧
      ∃ t, run cycle demo = some t ∧ t.sem = some 1 ∧
        t.shown = [([65, 112, 112, 108, 101], [53])] := by
  obtain ⟨t, h1, -, h2, -, -, -, -, h3⟩ :=
    intended_cycle demo rfl rfl rfl zeros_length (by decide) (by decide) (by decide)
  refine ⟨rfl, rfl, rfl, t, h1, h2, ?_⟩
  rw [h3]
  decide


/-! ### Deadlock freedom and the empty input line -/

theorem semWait_semAdd (k : Nat) (sem : Option Nat) (hk : 1 ≤ k) :
    (semWait 1 (semAdd k sem)).isSome = true := by
  cases sem with
  | none => rfl
  | some v =>
    have : 1 ≤ v + k := by omega
    simp [semWait, semAdd, this]

theorem stepReq_spc {s t : State} (h : stepReq s = some t) : t.spc = s.spc := by
  unfold stepReq at h
  split at h
  · cases hw : semWait 1 s.sem with
    | none => simp [hw] at h
    | some v => simp [hw] at h; subst h; rfl
  · dsimp only at h
    split at h
    · simp at h; subst h; rfl
    · simp at h; subst h; rfl
  · simp at h; subst h; rfl
  · cases hw : semWait 1 s.sem with
    | none => simp [hw] at h
    | some v => simp [hw] at h; subst h; rfl
  · simp at h; subst h; rfl
  · simp at h; subst h; rfl
  · simp at h; subst h; rfl
  · simp at h; subst h; rfl
  · simp at h; subst h; rfl
  · simp at h

theorem stepResp_rpc {s t : State} (h : stepResp s = some t) : t.rpc = s.rpc := by
  unfold stepResp at h
  split at h
  · cases hw : semWait 2 s.sem with
    | none => simp [hw] at h
    | some v => simp [hw] at h; subst h; rfl
  · simp at h; subst h; rfl
  · simp at h; subst h; rfl
  · simp at h; subst h; rfl
  · simp at h; subst h; rfl
  · simp at h; subst h; rfl
  · simp at h; subst h; rfl
  · simp at h; subst h; rfl
  · simp at h

/-- An endpoint arrives at a wait only through one of its semop(+k), so after
any step that leaves both endpoints at a wait the value is at least 1. -/
theorem step_waitsServed {a : Actor} {s t : State} (h : step a s = some t) :
    WaitsServed t := by
  intro hr hs
  cases a with
  | req =>
    have h2 : stepReq s = some t := h
    unfold stepReq at h2
    split at h2
    · cases hw : semWait 1 s.sem with
      | none => simp [hw] at h2
      | some v => simp [hw] at h2; subst h2; simp at hr
    · dsimp only at h2
      split at h2
      · simp at h2; subst h2; simp at hr
      · simp at h2; subst h2; simp at hr
    · simp at h2; subst h2
      exact semWait_semAdd 2 s.sem (by omega)
    · cases hw : semWait 1 s.sem with
      | none => simp [hw] at h2
      | some v => simp [hw] at h2; subst h2; simp at hr
    · simp at h2; subst h2; simp at hr
    · simp at h2; subst h2
      exact semWait_semAdd 1 s.sem (by omega)
    · simp at h2; subst h2; simp at hr
    · simp at h2; subst h2; simp at hr
    · simp at h2; subst h2; simp at hr
    · simp at h2
  | resp =>
    have h2 : stepResp s = some t := h
    unfold stepResp at h2
    split at h2
    · cases hw : semWait 2 s.sem with
      | none => simp [hw] at h2
      | some v => simp [hw] at h2; subst h2; simp at hs
    · simp at h2; subst h2
      by_cases hz : strcmp s.p exitLit = 0 <;> simp [hz] at hs
    · simp at h2; subst h2; simp at hs
    · simp at h2; subst h2; simp at hs
    · simp at h2; subst h2
      exact semWait_semAdd 1 s.sem (by omega)
    · simp at h2; subst h2; simp at hs
    · simp at h2; subst h2; simp at hs
    · simp at h2; subst h2; simp at hs
    · simp at h2

theorem run_waitsServed (sched : List Actor) :
    ∀ s t, WaitsServed s → run sched s = some t → WaitsServed t := by
  induction sched with
  | nil => intro s t hs h; simp [run] at h; subst h; exact hs
  | cons a as ih =>
    intro s t _ h
    simp only [run] at h
    cases hs : step a s with
    | none => simp [hs] at h
    | some u =>
      simp [hs] at h
      exact ih u t (step_waitsServed hs) h

/-- C26: in every state the two programs reach from the top of their loops with
the semaphore at 1, as long as both are inside their loops, at least one
endpoint's next semaphore operation is enabled (it stands at a wait that would
return, or it is between a wait and its semop(+k), which never blocks), and so
some endpoint can make a step. -/
theorem handshake_deadlock_free (stdin : List Nat) (p line command count : Buf)
    (sched : List Actor) (s : State)
    (hrun : run sched (init stdin p line command count) = some s)
    (hR : reqInLoop s = true) (hS : respInLoop s = true) :
    (reqWaitEnabled s = true ∨ reqInSection s = true ∨ respWaitEnabled s = true ∨
        respInSection s = true) ∧
      ∃ a t, step a s = some t := by
  have hinv : WaitsServed s := by
    refine run_waitsServed sched (init stdin p line command count) s ?_ hrun
    intro _ _
    rfl
  have hdisj : reqWaitEnabled s = true ∨ reqInSection s = true ∨ respWaitEnabled s = true ∨
      respInSection s = true := by
    simp only [reqInLoop, respInLoop, Bool.or_eq_true, decide_eq_true_eq] at hR hS
    by_cases hrw : s.rpc = .wait1 ∨ s.rpc = .wait2
    · by_cases hsw : s.spc = .wait
      · left
        have := hinv hrw hsw
        simp only [reqWaitEnabled, Bool.and_eq_true, Bool.or_eq_true, decide_eq_true_eq]
        exact ⟨hrw, this⟩
      · right; right; right
        simp only [respInSection, Bool.or_eq_true, decide_eq_true_eq]
        tauto
    · right; left
      simp only [reqInSection, Bool.or_eq_true, decide_eq_true_eq]
      tauto
  refine ⟨hdisj, ?_⟩
  rcases hdisj with h | h | h | h
  · simp only [reqWaitEnabled, Bool.and_eq_true, Bool.or_eq_true, decide_eq_true_eq] at h
    obtain ⟨hpc, hw⟩ := h
    cases hv : semWait 1 s.sem with
    | none => simp [hv] at hw
    | some v =>
      rcases hpc with hpc | hpc
      · exact ⟨.req, _, by simp [step, stepReq, hpc, hv]; rfl⟩
      · exact ⟨.req, _, by simp [step, stepReq, hpc, hv]; rfl⟩
  · simp only [reqInSection, Bool.or_eq_true, decide_eq_true_eq] at h
    have : (stepReq s).isSome = true := by
      rcases h with ((h | h) | h) | h
      · simp only [stepReq, h]
        split <;> rfl
      · simp [stepReq, h]
      · simp [stepReq, h]
      · simp [stepReq, h]
    cases hv : stepReq s with
    | none => simp [hv] at this
    | some t => exact ⟨.req, t, hv⟩
  · simp only [respWaitEnabled, Bool.and_eq_true, decide_eq_true_eq] at h
    obtain ⟨hpc, hw⟩ := h
    cases hv : semWait 2 s.sem with
    | none => simp [hv] at hw
    | some v => exact ⟨.resp, _, by simp [step, stepResp, hpc, hv]; rfl⟩
  · simp only [respInSection, Bool.or_eq_true, decide_eq_true_eq] at h
    have : (stepResp s).isSome = true := by
      rcases h with ((h | h) | h) | h <;> simp [stepResp, h]
    cases hv : stepResp s with
    | none => simp [hv] at this
    | some t => exact ⟨.resp, t, hv⟩

theorem handshake_deadlock_free_witness :
    (∃ s, run [.req, .req, .req] demo = some s ∧ reqInLoop s = true ∧ respInLoop s = true ∧
        (reqWaitEnabled s = true ∨ reqInSection s = true ∨ respWaitEnabled s = true ∨
          respInSection s = true)) := by
  have hd : (run [.req, .req, .req] demo).map (fun s => (reqInLoop s, respInLoop s)) =
      some (true, true) := by decide
  cases hrun : run [.req, .req, .req] demo with
  | none => rw [hrun] at hd; simp at hd
  | some s =>
    rw [hrun] at hd
    simp only [Option.map_some', Option.some.injEq, Prod.mk.injEq] at hd
    exact ⟨s, rfl, hd.1, hd.2,
      (handshake_deadlock_free _ zeros zeros zeros zeros [.req, .req, .req] s hrun hd.1 hd.2).1⟩

/-- C27: when the line read is a lone newline, sscanf returns 0 and leaves
command as it was, the loop does not break, and the requester copies the
unchanged command into the region (the previous request, when command holds a
string that fits) and then adds 2 to the semaphore. -/
theorem lone_newline_resends (s : State) (v : Nat) (rest : List Nat)
    (hpc : s.rpc = .input) (hin : s.stdin = 10 :: rest) (hsem : s.sem = some v)
    (hp : s.p.length = CAP) :
    sscanf (fgets s.line CAP s.stdin).1 s.command = (0, s.command) ∧
      ∃ t u, stepReq s = some t ∧ t.rpc = .add2 ∧ t.stdin = rest ∧
        t.command = s.command ∧ t.p = strncpy s.p s.command CAP ∧
        (strlen s.command < CAP → cstr t.p = cstr s.command) ∧
        stepReq t = some u ∧ u.sem = some (v + 2) ∧ u.p = t.p ∧
        (u.rpc = .wait2 ∨ u.rpc = .unmap) := by
  have hcap : CAP = 4096 := rfl
  have hl : fgetsLine (CAP - 1) s.stdin = [10] := by
    rw [hin]; rfl
  have hf : fgets s.line CAP s.stdin = ([10] ++ 0 :: s.line.drop 2, rest) := by
    rw [hin] at hl
    simp [fgets, hl, hin]
  have hsc : sscanf (fgets s.line CAP s.stdin).1 s.command = (0, s.command) := by
    rw [hf]
    simp [sscanf, cstr]
  have ht : stepReq s = some
      { s with stdin := rest, line := [10] ++ 0 :: s.line.drop 2,
               ret3 := strcmp s.command exitLit,
               p := strncpy s.p s.command CAP, rpc := .add2 } := by
    simp only [stepReq, hpc, hsc]
    simp [hf]
  have hu : stepReq
      { s with stdin := rest, line := [10] ++ 0 :: s.line.drop 2,
               ret3 := strcmp s.command exitLit,
               p := strncpy s.p s.command CAP, rpc := .add2 } = some
      { s with stdin := rest, line := [10] ++ 0 :: s.line.drop 2,
               ret3 := strcmp s.command exitLit,
               p := strncpy s.p s.command CAP, sem := some (v + 2),
               rpc := if strcmp s.command exitLit = 0 then .unmap else .wait2 } := by
    simp [stepReq, semAdd, hsem]
  refine ⟨hsc, _, _, ht, rfl, rfl, rfl, rfl, ?_, hu, rfl, rfl, ?_⟩
  · intro hlen
    exact strncpy_cstr _ _ CAP (by omega) hlen
  · by_cases hz : strcmp s.command exitLit = 0 <;> simp [hz]

theorem lone_newline_resends_witness :
    (atInput [10, 66, 97, 108, 108, 10]).rpc = .input ∧
      (atInput [10, 66, 97, 108, 108, 10]).stdin = 10 :: [66, 97, 108, 108, 10] ∧
      sscanf (fgets (atInput [10, 66, 97, 108, 108, 10]).line CAP
        (atInput [10, 66, 97, 108, 108, 10]).stdin).1
        (atInput [10, 66, 97, 108, 108, 10]).command =
        (0, (atInput [10, 66, 97, 108, 108, 10]).command) :=
  ⟨rfl, rfl,
    (lone_newline_resends (atInput [10, 66, 97, 108, 108, 10]) 0 [66, 97, 108, 108, 10]
      rfl rfl rfl zeros_length).1⟩
end Shm

namespace Mymask

/-- C18 (fails on the code): for the mode rwxrwxrwx (0777) mymask passes 0711
(rwx--x--x) to chmod, not 0744 (rwxr--r--): the mask 0066 removes the read and
write permissions of group and others and keeps their execute permission, where
the description removes write and execute. -/
theorem mask_removes_read_write :
    newMode 0o777 = 0o711 ∧ newMode 0o777 ≠ 0o744 ∧ describedMode 0o777 = 0o744 ∧
      newMode 0o100777 = 0o100711 ∧
      (newMode 0o777).testBit 5 = false ∧ (newMode 0o777).testBit 3 = true ∧
      (newMode 0o777).testBit 2 = false ∧ (newMode 0o777).testBit 0 = true := by
  decide

end Mymask

namespace Shell

theorem dropWhile_head_false (q : Nat → Bool) (l : List Nat) (x : Nat) (xs : List Nat)
    (h : l.dropWhile q = x :: xs) : q x = false := by
  induction l with
  | nil => simp at h
  | cons a l ih =>
    by_cases ha : q a = true
    · rw [List.dropWhile_cons_of_pos ha] at h; exact ih h
    · rw [List.dropWhile_cons_of_neg ha] at h
      have : a = x := by injection h
      subst this; simpa using ha

theorem tokensSpec_nil (sym : List Nat) : tokensSpec [] sym = [] := by
  simp [tokensSpec]

theorem tokensSpec_dropWhile (s sym : List Nat) :
    tokensSpec (s.dropWhile (isSep sym)) sym = tokensSpec s sym := by
  induction s with
  | nil => rfl
  | cons x xs ih =>
    by_cases hx : isSep sym x = true
    · rw [List.dropWhile_cons_of_pos hx, ih]
      simp [tokensSpec, List.splitOnP_cons, hx]
    · rw [List.dropWhile_cons_of_neg hx]

theorem tokensSpec_cons (x : Nat) (xs sym : List Nat) (hx : isSep sym x = false) :
    tokensSpec (x :: xs) sym =
      (x :: xs).takeWhile (fun y => !isSep sym y) ::
        tokensSpec (((x :: xs).dropWhile (fun y => !isSep sym y)).drop 1) sym := by
  have hsplit := List.takeWhile_append_dropWhile (fun y => !isSep sym y) (x :: xs)
  have hno : ∀ y ∈ (x :: xs).takeWhile (fun y => !isSep sym y), ¬ isSep sym y = true := by
    intro y hy
    have := List.mem_takeWhile_imp hy
    simpa using this
  have hne : (x :: xs).takeWhile (fun y => !isSep sym y) ≠ [] := by
    simp [List.takeWhile_cons, hx]
  have hkeep : (!((x :: xs).takeWhile (fun y => !isSep sym y)).isEmpty) = true := by
    cases ht : (x :: xs).takeWhile (fun y => !isSep sym y) with
    | nil => exact absurd ht hne
    | cons a as => rfl
  cases hd : (x :: xs).dropWhile (fun y => !isSep sym y) with
  | nil =>
    rw [hd, List.append_nil] at hsplit
    have h1 := List.splitOnP_eq_single (isSep sym) _ hno
    rw [hsplit] at h1 hkeep ⊢
    simp only [tokensSpec, h1, List.drop_nil, List.splitOnP_nil]
    simp only [List.filter_cons, hkeep, if_true]
    rfl
  | cons sep as =>
    have hsep : isSep sym sep = true := by
      have := dropWhile_head_false _ _ _ _ hd
      simpa using this
    rw [hd] at hsplit
    have h1 := List.splitOnP_first (isSep sym) _ hno sep hsep as
    rw [hsplit] at h1
    simp only [tokensSpec, h1, List.drop_one, List.tail_cons]
    simp only [List.filter_cons, hkeep, if_true]

/-- What strtok returns, in terms of the tokens: NULL when there is none,
otherwise the first token, leaving a shorter string that holds the others. -/
theorem strtok_spec (s sym : List Nat) :
    ((strtok s sym).1 = none ∧ tokensSpec s sym = []) ∨
      (∃ t, (strtok s sym).1 = some t ∧
        tokensSpec s sym = t :: tokensSpec (strtok s sym).2 sym ∧
        (strtok s sym).2.length < s.length) := by
  cases hd : s.dropWhile (isSep sym) with
  | nil =>
    left
    refine ⟨by simp only [strtok, hd], ?_⟩
    rw [← tokensSpec_dropWhile, hd, tokensSpec_nil]
  | cons x xs =>
    right
    have hx : isSep sym x = false := dropWhile_head_false _ _ _ _ hd
    have hst : strtok s sym = (some ((x :: xs).takeWhile (fun y => !isSep sym y)),
        ((x :: xs).dropWhile (fun y => !isSep sym y)).drop 1) := by
      simp only [strtok, hd]
    refine ⟨(x :: xs).takeWhile (fun y => !isSep sym y), by rw [hst], ?_, ?_⟩
    · rw [← tokensSpec_dropWhile, hd, tokensSpec_cons x xs sym hx, hst]
    · have h1 : (x :: xs).length ≤ s.length := by
        rw [← hd]; exact (List.dropWhile_sublist _).length_le
      have hq : (x :: xs).dropWhile (fun y => !isSep sym y) =
          xs.dropWhile (fun y => !isSep sym y) := by
        simp [List.dropWhile_cons, hx]
      have h2 : (((x :: xs).dropWhile (fun y => !isSep sym y)).drop 1).length ≤ xs.length := by
        rw [hq, List.length_drop]
        have : (xs.dropWhile (fun y => !isSep sym y)).length ≤ xs.length :=
          (List.dropWhile_sublist _).length_le
        omega
      simp only [hst]
      simp only [List.length_cons] at h1
      omega

theorem set_at_length (pre suf : Args) (a v : Option (List Nat)) :
    (pre ++ a :: suf).set pre.length v = pre ++ v :: suf := by
  induction pre with
  | nil => rfl
  | cons b pre ih => simp [List.set, ih]

theorem get_arg2_loop_none (sym : List Nat) (fuel : Nat) (rest : List Nat) (i : Nat)
    (arg : Args) : get_arg2_loop sym fuel none rest i arg = .ok (i, arg) := by
  cases fuel <;> rfl

/-- The loop stores the remaining tokens behind the entries already written and
a NULL behind them, and returns the index of that NULL. -/
theorem get_arg2_loop_spec (sym : List Nat) :
    ∀ (fuel : Nat) (rest t : List Nat) (i : Nat) (pre suf : Args),
      rest.length < fuel → pre.length = i + 1 → (tokensSpec rest sym).length < suf.length →
      get_arg2_loop sym fuel (some t) rest i (pre ++ suf) =
        .ok (i + 1 + (tokensSpec rest sym).length,
          pre ++ ((tokensSpec rest sym).map some ++
            none :: suf.drop ((tokensSpec rest sym).length + 1))) := by
  intro fuel
  induction fuel with
  | zero => intro rest t i pre suf h; omega
  | succ fuel ih =>
    intro rest t i pre suf hfuel hpre hroom
    cases suf with
    | nil => simp at hroom
    | cons a suf =>
      have hstore : ∀ v, store (pre ++ a :: suf) (i + 1) v = .ok (pre ++ v :: suf) := by
        intro v
        have hlt : i + 1 < (pre ++ a :: suf).length := by
          simp only [List.length_append, List.length_cons]; omega
        simp only [store, hlt, if_true]
        rw [← hpre, set_at_length]
      rw [get_arg2_loop, hstore]
      rcases strtok_spec rest sym with ⟨h1, h2⟩ | ⟨t2, h1, h2, h3⟩
      · simp only [h1, get_arg2_loop_none, h2, List.length_nil, List.map_nil, List.nil_append,
          Nat.add_zero, Nat.zero_add, List.drop_succ_cons, List.drop_zero]
      · have hroom2 : (tokensSpec (strtok rest sym).2 sym).length < suf.length := by
          rw [h2] at hroom
          simp only [List.length_cons] at hroom
          omega
        have hpre2 : (pre ++ [some t2]).length = (i + 1) + 1 := by
          simp only [List.length_append, List.length_cons, List.length_nil]; omega
        have := ih (strtok rest sym).2 t2 (i + 1) (pre ++ [some t2]) suf (by omega) hpre2 hroom2
        simp only [h1]
        rw [show pre ++ some t2 :: suf = (pre ++ [some t2]) ++ suf by simp, this, h2]
        simp only [List.length_cons, List.map_cons, List.append_assoc, List.cons_append,
          List.nil_append, List.drop_succ_cons]
        congr 2
        omega

/-- C20: when the array has room, get_arg2(c, arg, sym) returns the number n of
tokens of c (the maximal non-empty runs of characters not in sym), stores them in
order in arg[0..n-1] and NULL in arg[n], and leaves the entries behind untouched;
get_arg is get_arg2 with sym = " "; "ls -l" split at " " gives "ls", "-l", NULL
and the value 2. -/
theorem get_arg2_tokens (c sym : List Nat) (arg : Args)
    (hroom : (tokensSpec c sym).length < arg.length) :
    get_arg2 c arg sym =
        .ok ((tokensSpec c sym).length,
          (tokensSpec c sym).map some ++ none :: arg.drop ((tokensSpec c sym).length + 1)) ∧
      get_arg c arg = get_arg2 c arg [32] ∧
      get_arg2 [108, 115, 32, 45, 108] emptyArgs [32] =
        .ok (2, [some [108, 115], some [45, 108], none] ++ List.replicate 29 none) := by
  refine ⟨?_, rfl, by rfl⟩
  cases arg with
  | nil => simp at hroom
  | cons a arg =>
    have hstore : ∀ v, store (a :: arg) 0 v = .ok (v :: arg) := by
      intro v; simp [store]
    rw [get_arg2, hstore]
    rcases strtok_spec c sym with ⟨h1, h2⟩ | ⟨t, h1, h2, h3⟩
    · simp only [h1, get_arg2_loop_none, h2, List.length_nil, List.map_nil, List.nil_append,
        Nat.zero_add, List.drop_succ_cons, List.drop_zero]
    · have hroom2 : (tokensSpec (strtok c sym).2 sym).length < arg.length := by
        rw [h2] at hroom
        simp only [List.length_cons] at hroom
        omega
      have := get_arg2_loop_spec sym (c.length + 1) (strtok c sym).2 t 0 [some t] arg
        (by omega) rfl hroom2
      simp only [h1]
      rw [show some t :: arg = [some t] ++ arg by rfl, this, h2]
      simp only [List.length_cons, List.map_cons, List.cons_append, List.nil_append,
        List.drop_succ_cons]
      congr 2
      omega

theorem get_arg2_tokens_witness :
    (tokensSpec [108, 115, 32, 45, 108] [32]).length < emptyArgs.length ∧
      tokensSpec [108, 115, 32, 45, 108] [32] = [[108, 115], [45, 108]] ∧
      get_arg2 [108, 115, 32, 45, 108] emptyArgs [32] =
        .ok ((tokensSpec [108, 115, 32, 45, 108] [32]).length,
          (tokensSpec [108, 115, 32, 45, 108] [32]).map some ++
            none :: emptyArgs.drop ((tokensSpec [108, 115, 32, 45, 108] [32]).length + 1)) :=
  ⟨by decide, by decide,
    (get_arg2_tokens [108, 115, 32, 45, 108] [32] emptyArgs (by decide)).1⟩

end Shell

namespace Shell

/-- With room in the array, get_arg2 returns the number of tokens and leaves the
tokens, a NULL and the old entries behind it in the array. -/
theorem get_arg2_ok (c sym : List Nat) (arg : Args)
    (hroom : (tokensSpec c sym).length < arg.length) :
    get_arg2 c arg sym =
      .ok ((tokensSpec c sym).length,
        (tokensSpec c sym).map some ++ none :: arg.drop ((tokensSpec c sym).length + 1)) := by
  cases arg with
  | nil => simp at hroom
  | cons a arg =>
    have hstore : ∀ v, store (a :: arg) 0 v = .ok (v :: arg) := by
      intro v; simp [store]
    rw [get_arg2, hstore]
    rcases strtok_spec c sym with ⟨h1, h2⟩ | ⟨t, h1, h2, h3⟩
    · simp only [h1, get_arg2_loop_none, h2, List.length_nil, List.map_nil, List.nil_append,
        Nat.zero_add, List.drop_succ_cons, List.drop_zero]
    · have hroom2 : (tokensSpec (strtok c sym).2 sym).length < arg.length := by
        rw [h2] at hroom
        simp only [List.length_cons] at hroom
        omega
      have := get_arg2_loop_spec sym (c.length + 1) (strtok c sym).2 t 0 [some t] arg
        (by omega) rfl hroom2
      simp only [h1]
      rw [show some t :: arg = [some t] ++ arg by rfl, this, h2]
      simp only [List.length_cons, List.map_cons, List.cons_append, List.nil_append,
        List.drop_succ_cons]
      congr 2
      omega

theorem isSep_bar (x : Nat) : isSep [124] x = true ↔ x = 124 := by
  simp [isSep]

/-- A non-empty string without a bar is its own single token. -/
theorem tokensSpec_no_bar (c : List Nat) (hc : c ≠ []) (hbar : 124 ∉ c) :
    tokensSpec c [124] = [c] := by
  have hno : ∀ x ∈ c, ¬ isSep [124] x = true := by
    intro x hx h
    rw [isSep_bar] at h
    subst h
    exact hbar hx
  have h1 := List.splitOnP_eq_single (isSep [124]) c hno
  simp only [tokensSpec, h1]
  cases c with
  | nil => exact absurd rfl hc
  | cons a as => rfl

/-- Two non-empty strings without a bar, joined by a bar, are the two tokens. -/
theorem tokensSpec_one_bar (cmd1 cmd2 : List Nat) (h1 : cmd1 ≠ []) (h2 : cmd2 ≠ [])
    (hb1 : 124 ∉ cmd1) (hb2 : 124 ∉ cmd2) :
    tokensSpec (cmd1 ++ 124 :: cmd2) [124] = [cmd1, cmd2] := by
  have hno : ∀ x ∈ cmd1, ¬ isSep [124] x = true := by
    intro x hx h
    rw [isSep_bar] at h
    subst h
    exact hb1 hx
  have hs := List.splitOnP_first (isSep [124]) cmd1 hno 124 ((isSep_bar 124).mpr rfl) cmd2
  have ht := tokensSpec_no_bar cmd2 h2 hb2
  simp only [tokensSpec] at ht
  simp only [tokensSpec, hs]
  cases cmd1 with
  | nil => exact absurd rfl h1
  | cons a as =>
    simp only [List.filter_cons, List.isEmpty_cons, Bool.not_false, if_true]
    rw [ht]

/-- C21 (as stated, fails on the code): "ls|" contains a bar and get_arg2 returns
1 for it, with divcom[0] = "ls"; "a||b" contains two bars and get_arg2 returns 2
for it, with divcom[0] = "a" and divcom[1] = "b". -/
theorem bar_count_misclassifies :
    (124 ∈ [108, 115, 124] ∧
      get_arg2 [108, 115, 124] emptyArgs [124] =
        .ok (1, [some [108, 115], none] ++ List.replicate 30 none)) ∧
    ([97, 124, 124, 98].count 124 = 2 ∧
      get_arg2 [97, 124, 124, 98] emptyArgs [124] =
        .ok (2, [some [97], some [98], none] ++ List.replicate 29 none)) :=
  ⟨⟨by decide, by rfl⟩, ⟨by decide, by rfl⟩⟩

/-- C21 (amended): with room in divcom, get_arg2(command, divcom, "|") returns
the number of non-empty runs of characters other than the bar; a non-empty
command without a bar gives 1 with divcom[0] the command, and cmd1|cmd2 with
cmd1 and cmd2 non-empty and without a bar gives 2 with divcom[0] = cmd1 and
divcom[1] = cmd2. -/
theorem bar_split (c cmd1 cmd2 : List Nat) (arg : Args) (hlen : 2 < arg.length) :
    ((tokensSpec c [124]).length < arg.length →
      ∃ arg2, get_arg2 c arg [124] = .ok ((tokensSpec c [124]).length, arg2)) ∧
    (c ≠ [] → 124 ∉ c →
      get_arg2 c arg [124] = .ok (1, some c :: none :: arg.drop 2)) ∧
    (cmd1 ≠ [] → cmd2 ≠ [] → 124 ∉ cmd1 → 124 ∉ cmd2 →
      get_arg2 (cmd1 ++ 124 :: cmd2) arg [124] =
        .ok (2, some cmd1 :: some cmd2 :: none :: arg.drop 3)) := by
  refine ⟨?_, ?_, ?_⟩
  · intro hroom
    exact ⟨_, get_arg2_ok c [124] arg hroom⟩
  · intro hc hbar
    have ht := tokensSpec_no_bar c hc hbar
    have := get_arg2_ok c [124] arg (by rw [ht]; simp only [List.length_singleton]; omega)
    rw [ht] at this
    exact this
  · intro h1 h2 hb1 hb2
    have ht := tokensSpec_one_bar cmd1 cmd2 h1 h2 hb1 hb2
    have := get_arg2_ok (cmd1 ++ 124 :: cmd2) [124] arg
      (by rw [ht]; simp only [List.length_cons, List.length_nil]; omega)
    rw [ht] at this
    exact this

theorem bar_split_witness :
    2 < emptyArgs.length ∧
      get_arg2 [108, 115] emptyArgs [124] =
        .ok (1, some [108, 115] :: none :: emptyArgs.drop 2) ∧
      get_arg2 ([108, 115] ++ 124 :: [119, 99]) emptyArgs [124] =
        .ok (2, some [108, 115] :: some [119, 99] :: none :: emptyArgs.drop 3) := by
  have h := bar_split [108, 115] [108, 115] [119, 99] emptyArgs (by decide)
  exact ⟨by decide, h.2.1 (by decide) (by decide),
    h.2.2 (by decide) (by decide) (by decide) (by decide)⟩

/-- C22 (fails on the code): the line "a a ... a" with 32 arguments has 63
characters, well within the 255 that fgets(line, 256) can deliver, and get_arg
stores its 32 tokens in arg[0..31] and then the NULL at index 32, outside
`char *arg[32]`; with one more entry in the array the call would return 32 with
the NULL at index 32. -/
theorem get_arg_overflows :
    manyArgs.length = 63 ∧ (tokensSpec manyArgs [32]).length = 32 ∧
      emptyArgs.length = 32 ∧
      get_arg manyArgs emptyArgs = .error Fault.outOfBounds ∧
      (∃ arg2, get_arg manyArgs (emptyArgs ++ [none]) = .ok (32, arg2) ∧
        arg2[32]? = some none) := by
  refine ⟨by decide, by decide, by decide, by rfl, ?_⟩
  have h := get_arg2_ok manyArgs [32] (emptyArgs ++ [none]) (by decide)
  refine ⟨_, h, ?_⟩
  have hl : (tokensSpec manyArgs [32]).length = 32 := by decide
  rw [List.getElem?_append_right (by simp [hl]), List.length_map, hl]
  rfl

end Shell

namespace Linearlist

/-- C23: for any initial contents of the five elements and five numbers on the
input, after the construction arr[i].next refers to arr[i+1] for i = 0..3 and
arr[4].next is NULL, the data are the five numbers in input order, and the
traversal from arr[0] ends after visiting exactly the five nodes 0..4, printing
the five numbers in input order. -/
theorem list_built_and_traversed (arr0 : List Linear) (ptr0 curr0 : Nat)
    (a b c d e : Int) (rest : List Int) (harr : arr0.length = 5) :
    ∃ m, construct { arr := arr0, ptr := ptr0, curr := curr0,
                     stdin := a :: b :: c :: d :: e :: rest } = some m ∧
      m.arr.map (fun nd => nd.next) = [some 1, some 2, some 3, some 4, none] ∧
      m.arr.map (fun nd => nd.data) = [a, b, c, d, e] ∧ m.ptr = 0 ∧
      ∀ k, traverse (k + 5) (some m.ptr) m.arr [] =
        some [(0, a), (1, b), (2, c), (3, d), (4, e)] := by
  match arr0, harr with
  | [n0, n1, n2, n3, n4], _ =>
    have hm : construct { arr := [n0, n1, n2, n3, n4], ptr := ptr0, curr := curr0,
                          stdin := a :: b :: c :: d :: e :: rest } = some
        { arr := [{ data := a, next := some 1 }, { data := b, next := some 2 },
                  { data := c, next := some 3 }, { data := d, next := some 4 },
                  { data := e, next := none }],
          ptr := 0, curr := 4, stdin := rest } := rfl
    refine ⟨_, hm, rfl, rfl, rfl, ?_⟩
    intro k
    simp [traverse]

theorem list_built_and_traversed_witness :
    (List.replicate 5 ({ data := 0, next := none } : Linear)).length = 5 ∧
      ∃ m, construct { arr := List.replicate 5 { data := 0, next := none }, ptr := 0,
                       curr := 0, stdin := [10, 20, 30, 40, 50] } = some m ∧
        traverse 5 (some m.ptr) m.arr [] =
          some [(0, 10), (1, 20), (2, 30), (3, 40), (4, 50)] := by
  obtain ⟨m, h1, -, -, -, h2⟩ :=
    list_built_and_traversed (List.replicate 5 { data := 0, next := none }) 0 0
      10 20 30 40 50 [] (by decide)
  exact ⟨by decide, m, h1, h2 0⟩

end Linearlist

namespace Mydf

/-- C24 (fails on the code): for a file system of 4294967296 blocks of which
1073741824 are free, the used-block count stored in the `int` variable ubs is
-1073741824, not 3221225472, and used plus free blocks is not the total. -/
theorem ubs_overflows :
    (1073741824 : Nat) ≤ 4294967296 ∧
      ubs 4294967296 1073741824 = -1073741824 ∧
      ubs 4294967296 1073741824 ≠ ((4294967296 - 1073741824 : Nat) : Int) ∧
      ubs 4294967296 1073741824 + 1073741824 ≠ 4294967296 := by
  decide

/-- The used-block count is exact as long as it is below 2^31. -/
theorem ubs_exact (f_blocks f_bfree : Nat) (h1 : f_bfree ≤ f_blocks) (h2 : f_blocks < 2 ^ 64)
    (h3 : f_blocks - f_bfree < 2 ^ 31) :
    ubs f_blocks f_bfree = ((f_blocks - f_bfree : Nat) : Int) := by
  have e1 : f_blocks % 2 ^ 64 = f_blocks := Nat.mod_eq_of_lt h2
  have e2 : f_bfree % 2 ^ 64 = f_bfree := Nat.mod_eq_of_lt (by omega)
  have e3 : (f_blocks + 2 ^ 64 - f_bfree) % 2 ^ 64 = f_blocks - f_bfree := by
    have : f_blocks + 2 ^ 64 - f_bfree = (f_blocks - f_bfree) + 2 ^ 64 := by omega
    rw [this, Nat.add_mod_right]
    exact Nat.mod_eq_of_lt (by omega)
  have e4 : (f_blocks - f_bfree) % 2 ^ 32 = f_blocks - f_bfree :=
    Nat.mod_eq_of_lt (by omega)
  simp only [ubs, toInt, e1, e2, e3, e4, h3, if_true]

end Mydf

namespace Client

theorem fgetsLine_newline (k : Nat) (body rest : List Nat) (hnl : 10 ∉ body)
    (hk : body.length < k) : Shm.fgetsLine k (body ++ 10 :: rest) = body ++ [10] := by
  induction body generalizing k with
  | nil =>
    cases k with
    | zero => simp at hk
    | succ k => simp [Shm.fgetsLine]
  | cons x xs ih =>
    cases k with
    | zero => simp at hk
    | succ k =>
      have hx : x ≠ 10 := fun h => hnl (by simp [h])
      have hxs : 10 ∉ xs := fun h => hnl (by simp [h])
      have hk2 : xs.length < k := by simpa using hk
      simp [Shm.fgetsLine, hx, ih k hxs hk2]

theorem set_at_newline (pre suf : List Nat) (a v : Nat) :
    (pre ++ a :: suf).set pre.length v = pre ++ v :: suf := by
  induction pre with
  | nil => rfl
  | cons b pre ih => simp [List.set, ih]

set_option maxRecDepth 20000 in
/-- C25 (as stated, fails on the code): the line "abc" obtained at the end of the
input has no newline, and the word sent is "ab"; of a line of 255 characters
without a newline only the first 254 are sent. -/
theorem last_character_lost :
    Shm.cstr (Shm.fgets (List.replicate BUF_SIZE 0) BUF_SIZE [97, 98, 99]).1 = [97, 98, 99] ∧
      sent [97, 98, 99] = some [97, 98] ∧
      Shm.cstr (Shm.fgets (List.replicate BUF_SIZE 0) BUF_SIZE (List.replicate 300 97)).1 =
        List.replicate 255 97 ∧
      sent (List.replicate 300 97) = some (List.replicate 254 97) := by
  refine ⟨by decide, by decide, by decide, by decide⟩

/-- C25 (amended): for every line obtained by fgets(word, 256) that ends with a
newline and holds no NUL, the statement word[strlen(word) - 1] = 0 writes at the
index of the newline, which is within 0..254, and the word sent is the line
without its newline. -/
theorem newline_stripped (body rest : List Nat) (hnl : 10 ∉ body) (hnul : 0 ∉ body)
    (hlen : body.length ≤ 254) :
    Shm.cstr (Shm.fgets (List.replicate BUF_SIZE 0) BUF_SIZE (body ++ 10 :: rest)).1 =
        body ++ [10] ∧
      ∃ word, readWord (body ++ 10 :: rest) = some (body.length, word) ∧
        body.length < BUF_SIZE ∧ Shm.cstr word = body ∧
        sent (body ++ 10 :: rest) = some body := by
  have hb : BUF_SIZE = 256 := rfl
  have hline : Shm.fgetsLine (BUF_SIZE - 1) (body ++ 10 :: rest) = body ++ [10] :=
    fgetsLine_newline _ body rest hnl (by omega)
  have hne : body ++ [10] ≠ [] := by simp
  have hfg : (Shm.fgets (List.replicate BUF_SIZE 0) BUF_SIZE (body ++ 10 :: rest)).1 =
      body ++ 10 :: 0 :: (List.replicate BUF_SIZE 0).drop ((body ++ [10]).length + 1) := by
    simp only [Shm.fgets, hline, hne, if_false]
    simp
  have hnz : ∀ c ∈ body ++ [10], c ≠ 0 := by
    intro c hc h
    subst h
    rcases List.mem_append.mp hc with h | h
    · exact hnul h
    · simp at h
  have hcs : Shm.cstr (Shm.fgets (List.replicate BUF_SIZE 0) BUF_SIZE
      (body ++ 10 :: rest)).1 = body ++ [10] := by
    rw [hfg]
    have := Shm.cstr_append_zero (body ++ [10])
      ((List.replicate BUF_SIZE 0).drop ((body ++ [10]).length + 1)) hnz
    simpa using this
  have hidx : lastIndex (Shm.fgets (List.replicate BUF_SIZE 0) BUF_SIZE
      (body ++ 10 :: rest)).1 = body.length := by
    simp only [lastIndex, Shm.strlen, hcs, List.length_append, List.length_cons,
      List.length_nil]
    have h264 : (2 : Nat) ^ 64 = 18446744073709551616 := by norm_num
    rw [h264]
    omega
  have hbz : ∀ c ∈ body, c ≠ 0 := fun c hc h => hnul (h ▸ hc)
  have hread : readWord (body ++ 10 :: rest) = some (body.length,
      body ++ 0 :: 0 :: (List.replicate BUF_SIZE 0).drop ((body ++ [10]).length + 1)) := by
    have hlt : body.length < BUF_SIZE := by omega
    simp only [readWord, hidx, hlt, if_true]
    rw [hfg, set_at_newline]
  refine ⟨hcs, _, hread, by omega, Shm.cstr_append_zero _ _ hbz, ?_⟩
  simp only [sent, hread, Option.map_some']
  rw [Shm.cstr_append_zero _ _ hbz]

theorem newline_stripped_witness :
    10 ∉ [97, 98, 99] ∧ 0 ∉ [97, 98, 99] ∧ [97, 98, 99].length ≤ 254 ∧
      sent ([97, 98, 99] ++ 10 :: [100, 10]) = some [97, 98, 99] :=
  ⟨by decide, by decide, by decide,
    (newline_stripped [97, 98, 99] [100, 10] (by decide) (by decide) (by decide)).2.choose_spec.2.2.2⟩

end Client
